import Mathlib

/-!
# QFileAccessLocker: a registry of named reader-writer locks

A shallow embedding of the two headers of the repository,

* `src/qfileaccesslocker.h` (namespace `qfileaccesslocker`) and
* `src/fileaccesslocker.h` (namespace `fileaccesslocker`),

together with the properties of the registry and of the scoped guards.

A call of a member function is embedded as a function from the registry state to an
`Outcome`: the state it leaves, the events it issued in program order, and whether it
returned or is still waiting inside the blocking acquire of a per-key lock.  The mutex
`m_mutex` is visible in the event trace (`mutexLock`, `mutexUnlock`); a call is embedded
from the moment its `QMutexLocker` owns the mutex.
-/

/-! ## The Qt types the headers use -/

/-- Modelled from the spec: the Qt class `QReadWriteLock` (the per-key `NamedLock`) is a
library type and not part of the sources.  Its state is the number of shared holders and
whether an exclusive holder exists; a read is granted only when no writer holds and a
write only when nobody holds. -/
structure QReadWriteLock where
  readers : Nat
  writer : Bool
deriving DecidableEq, Repr

namespace QReadWriteLock

/-- Modelled from the spec: `new QReadWriteLock`, a lock nobody holds. -/
def fresh : QReadWriteLock := ⟨0, false⟩

/-- Modelled from the spec: `QReadWriteLock::lockForRead()`.  `none` means the caller
stays blocked: a shared hold is granted only when no writer holds the lock. -/
def lockForRead (l : QReadWriteLock) : Option QReadWriteLock :=
  if l.writer then none else some { l with readers := l.readers + 1 }

/-- Modelled from the spec: `QReadWriteLock::lockForWrite()`.  `none` means the caller
stays blocked: an exclusive hold is granted only when nobody holds the lock. -/
def lockForWrite (l : QReadWriteLock) : Option QReadWriteLock :=
  if l.writer || l.readers != 0 then none else some { l with writer := true }

/-- Modelled from the spec: `QReadWriteLock::unlock()`.  It gives up the exclusive hold if
there is one and otherwise one shared hold.  Unlocking a lock nobody holds is undefined at
this level; the state is then left as it is. -/
def unlock (l : QReadWriteLock) : QReadWriteLock :=
  if l.writer then { l with writer := false } else { l with readers := l.readers - 1 }

end QReadWriteLock

/-- Address of a `QReadWriteLock` object: the value of a `QSharedPointer<QReadWriteLock>`.
`none` is the null pointer. -/
abbrev LockPtr := Option Nat

/-- Modelled from the spec: `QHash<QString, QSharedPointer<QReadWriteLock>>`, the mapping
from key to a shared reference to its lock, as a list of entries. -/
structure QHash where
  entries : List (String × Nat)
deriving DecidableEq, Repr

namespace QHash

/-- Entry lookup in a list of entries: the address stored under `key`, if any. -/
def find : List (String × Nat) → String → Option Nat
  | [], _ => none
  | (k, v) :: rest, key => if k = key then some v else find rest key

/-- Replace the value stored under `key`, or add the entry when there is none. -/
def put : List (String × Nat) → String → Nat → List (String × Nat)
  | [], key, v => [(key, v)]
  | (k, w) :: rest, key, v => if k = key then (key, v) :: rest else (k, w) :: put rest key v

/-- Modelled from the spec: the default-constructed `QHash`, with no entry. -/
def empty : QHash := ⟨[]⟩

/-- Modelled from the spec: `QHash::contains (key)`. -/
def contains (h : QHash) (key : String) : Bool := (find h.entries key).isSome

/-- Modelled from the spec: `QHash::value (key)`, the stored pointer, or a
default-constructed (null) pointer when the hash has no item with that key. -/
def value (h : QHash) (key : String) : LockPtr := find h.entries key

/-- Modelled from the spec: `QHash::insert (key, value)`; when there already is an item
with the key, that item's value is replaced. -/
def insert (h : QHash) (key : String) (v : Nat) : QHash := ⟨put h.entries key v⟩

end QHash

/-! ## The registry state, events and outcomes -/

/-- The data of `class QFileAccessLocker` (the same in both headers): the member `m_locks`,
and the `QReadWriteLock` objects its shared pointers own, by address.  The member `m_mutex`
appears in the event trace of a call. -/
structure QFileAccessLocker where
  m_locks : QHash
  heap : List QReadWriteLock
deriving DecidableEq, Repr

/-- The registry `instance ()` starts from: `QFileAccessLocker() = default`. -/
def QFileAccessLocker.init : QFileAccessLocker := ⟨QHash.empty, []⟩

/-- The member functions of `QFileAccessLocker`. -/
inductive Fn where
  | lockForWrite
  | lockForRead
  | unlock
deriving DecidableEq, Repr

/-- What a call does, in program order. -/
inductive Event where
  | call (fn : Fn) (fileName : String)
  | mutexLock
  | mutexUnlock
  | insert (fileName : String) (lock : Nat)
  | value (fileName : String) (lock : LockPtr)
  | lockForWrite (lock : LockPtr)
  | lockForRead (lock : LockPtr)
  | unlock (lock : LockPtr)
deriving DecidableEq, Repr

/-- How far a call got: it returned, it is waiting inside the blocking acquire of a
per-key lock, or it dereferenced a pointer that refers to no lock object. -/
inductive Status where
  | returned
  | blocked
  | fault
deriving DecidableEq, Repr

/-- Result of a call of a member function of `QFileAccessLocker`. -/
structure Outcome where
  state : QFileAccessLocker
  trace : List Event
  status : Status
deriving DecidableEq, Repr

namespace QFileAccessLocker

/-- The statement `m_locks.insert (fileName, QSharedPointer<QReadWriteLock> (new QReadWriteLock))`:
a lock object is allocated at the next free address and stored under `fileName`. -/
def insertNew (s : QFileAccessLocker) (fileName : String) : QFileAccessLocker :=
  { m_locks := s.m_locks.insert fileName s.heap.length,
    heap := s.heap ++ [QReadWriteLock.fresh] }

/-- The call `lock->lockForWrite()` through the pointer `lock`. -/
def callLockForWrite (s : QFileAccessLocker) (lock : LockPtr) : QFileAccessLocker × Status :=
  match lock with
  | none => (s, Status.fault)
  | some a =>
    match s.heap[a]? with
    | none => (s, Status.fault)
    | some l =>
      match l.lockForWrite with
      | none => (s, Status.blocked)
      | some l' => ({ s with heap := s.heap.set a l' }, Status.returned)

/-- The call `lock->lockForRead()` through the pointer `lock`. -/
def callLockForRead (s : QFileAccessLocker) (lock : LockPtr) : QFileAccessLocker × Status :=
  match lock with
  | none => (s, Status.fault)
  | some a =>
    match s.heap[a]? with
    | none => (s, Status.fault)
    | some l =>
      match l.lockForRead with
      | none => (s, Status.blocked)
      | some l' => ({ s with heap := s.heap.set a l' }, Status.returned)

/-- The call `lock->unlock()` through the pointer `lock`. -/
def callUnlock (s : QFileAccessLocker) (lock : LockPtr) : QFileAccessLocker × Status :=
  match lock with
  | none => (s, Status.fault)
  | some a =>
    match s.heap[a]? with
    | none => (s, Status.fault)
    | some l => ({ s with heap := s.heap.set a l.unlock }, Status.returned)

/-- The lock object the key refers to, if the key is present. -/
def lockOf (s : QFileAccessLocker) (key : String) : Option QReadWriteLock :=
  match s.m_locks.value key with
  | none => none
  | some a => s.heap[a]?

end QFileAccessLocker

/-! ## `src/qfileaccesslocker.h` -/

namespace qfileaccesslocker

/-- `QFileAccessLocker::lockForWrite` (lines 28-38). -/
def lockForWrite (s : QFileAccessLocker) (fileName : String) : Outcome :=
  -- QMutexLocker locker (&m_mutex);
  let t0 := [Event.call Fn.lockForWrite fileName, Event.mutexLock]
  -- if (!m_locks.contains (fileName)) m_locks.insert (fileName, ... (new QReadWriteLock));
  let absent := !s.m_locks.contains fileName
  let s1 := if absent then s.insertNew fileName else s
  let t1 := if absent then t0 ++ [Event.insert fileName s.heap.length] else t0
  -- auto lock = m_locks.value (fileName);
  let lock := s1.m_locks.value fileName
  let t2 := t1 ++ [Event.value fileName lock]
  -- locker.unlock ();
  let t3 := t2 ++ [Event.mutexUnlock]
  -- lock->lockForWrite();
  let r := s1.callLockForWrite lock
  ⟨r.1, t3 ++ [Event.lockForWrite lock], r.2⟩

/-- `QFileAccessLocker::lockForRead` (lines 40-50). -/
def lockForRead (s : QFileAccessLocker) (fileName : String) : Outcome :=
  -- QMutexLocker locker (&m_mutex);
  let t0 := [Event.call Fn.lockForRead fileName, Event.mutexLock]
  -- if (!m_locks.contains (fileName)) m_locks.insert (fileName, ... (new QReadWriteLock));
  let absent := !s.m_locks.contains fileName
  let s1 := if absent then s.insertNew fileName else s
  let t1 := if absent then t0 ++ [Event.insert fileName s.heap.length] else t0
  -- auto lock = m_locks.value (fileName);
  let lock := s1.m_locks.value fileName
  let t2 := t1 ++ [Event.value fileName lock]
  -- locker.unlock ();
  let t3 := t2 ++ [Event.mutexUnlock]
  -- lock->lockForRead();
  let r := s1.callLockForRead lock
  ⟨r.1, t3 ++ [Event.lockForRead lock], r.2⟩

/-- `QFileAccessLocker::unlock` (lines 52-62). -/
def unlock (s : QFileAccessLocker) (fileName : String) : Outcome :=
  -- QMutexLocker locker (&m_mutex);
  let t0 := [Event.call Fn.unlock fileName, Event.mutexLock]
  -- if (!m_locks.contains (fileName)) return;   (the locker's destructor releases m_mutex)
  if !s.m_locks.contains fileName then
    ⟨s, t0 ++ [Event.mutexUnlock], Status.returned⟩
  else
    -- auto lock = m_locks.value (fileName);
    let lock := s.m_locks.value fileName
    let t1 := t0 ++ [Event.value fileName lock]
    -- locker.unlock ();
    let t2 := t1 ++ [Event.mutexUnlock]
    -- lock->unlock();
    let r := s.callUnlock lock
    ⟨r.1, t2 ++ [Event.unlock lock], r.2⟩

end qfileaccesslocker

/-! ## `src/fileaccesslocker.h` -/

namespace fileaccesslocker

/-- `QFileAccessLocker::lockForWrite` (lines 32-40).  The `QMutexLocker` is released by its
destructor at the end of the scope, that is once `lockForWrite()` has returned. -/
def lockForWrite (s : QFileAccessLocker) (fileName : String) : Outcome :=
  -- QMutexLocker locker (&m_mutex);
  let t0 := [Event.call Fn.lockForWrite fileName, Event.mutexLock]
  -- if (!m_locks.contains (fileName)) m_locks.insert (fileName, ... (new QReadWriteLock));
  let absent := !s.m_locks.contains fileName
  let s1 := if absent then s.insertNew fileName else s
  let t1 := if absent then t0 ++ [Event.insert fileName s.heap.length] else t0
  -- m_locks.value (fileName)->lockForWrite();
  let lock := s1.m_locks.value fileName
  let t2 := t1 ++ [Event.value fileName lock, Event.lockForWrite lock]
  let r := s1.callLockForWrite lock
  -- end of scope
  ⟨r.1, if r.2 = Status.returned then t2 ++ [Event.mutexUnlock] else t2, r.2⟩

/-- `QFileAccessLocker::lockForRead` (lines 42-50). -/
def lockForRead (s : QFileAccessLocker) (fileName : String) : Outcome :=
  -- QMutexLocker locker (&m_mutex);
  let t0 := [Event.call Fn.lockForRead fileName, Event.mutexLock]
  -- if (!m_locks.contains (fileName)) m_locks.insert (fileName, ... (new QReadWriteLock));
  let absent := !s.m_locks.contains fileName
  let s1 := if absent then s.insertNew fileName else s
  let t1 := if absent then t0 ++ [Event.insert fileName s.heap.length] else t0
  -- m_locks.value (fileName)->lockForRead();
  let lock := s1.m_locks.value fileName
  let t2 := t1 ++ [Event.value fileName lock, Event.lockForRead lock]
  let r := s1.callLockForRead lock
  -- end of scope
  ⟨r.1, if r.2 = Status.returned then t2 ++ [Event.mutexUnlock] else t2, r.2⟩

/-- `QFileAccessLocker::unlock` (lines 52-60). -/
def unlock (s : QFileAccessLocker) (fileName : String) : Outcome :=
  -- QMutexLocker locker (&m_mutex);
  let t0 := [Event.call Fn.unlock fileName, Event.mutexLock]
  -- if (!m_locks.contains (fileName)) return;
  if !s.m_locks.contains fileName then
    ⟨s, t0 ++ [Event.mutexUnlock], Status.returned⟩
  else
    -- m_locks.value (fileName)->unlock();
    let lock := s.m_locks.value fileName
    let t1 := t0 ++ [Event.value fileName lock, Event.unlock lock]
    let r := s.callUnlock lock
    -- end of scope
    ⟨r.1, if r.2 = Status.returned then t1 ++ [Event.mutexUnlock] else t1, r.2⟩

end fileaccesslocker

/-! ## Calls by header, and runs of calls -/

/-- The two headers of the repository. -/
inductive Header where
  | qfileaccesslocker
  | fileaccesslocker
deriving DecidableEq, Repr

/-- The member function `fn` of `QFileAccessLocker` as the header `h` defines it. -/
def Header.call (h : Header) (fn : Fn) (s : QFileAccessLocker) (fileName : String) : Outcome :=
  match h, fn with
  | Header.qfileaccesslocker, Fn.lockForWrite => qfileaccesslocker.lockForWrite s fileName
  | Header.qfileaccesslocker, Fn.lockForRead => qfileaccesslocker.lockForRead s fileName
  | Header.qfileaccesslocker, Fn.unlock => qfileaccesslocker.unlock s fileName
  | Header.fileaccesslocker, Fn.lockForWrite => fileaccesslocker.lockForWrite s fileName
  | Header.fileaccesslocker, Fn.lockForRead => fileaccesslocker.lockForRead s fileName
  | Header.fileaccesslocker, Fn.unlock => fileaccesslocker.unlock s fileName

/-- Mode of an acquisition. -/
inductive Access where
  | read
  | write
deriving DecidableEq, Repr

/-- One step of the registry's history: a call of a member function, or the moment a caller
that was waiting inside `lock->lockForWrite()` / `lock->lockForRead()` is granted the lock. -/
inductive Op where
  | call (fn : Fn) (fileName : String)
  | granted (mode : Access) (lock : Nat)
deriving DecidableEq, Repr

/-- The effect of one step. -/
def Header.step (h : Header) (s : QFileAccessLocker) : Op → Outcome
  | Op.call fn fileName => h.call fn s fileName
  | Op.granted Access.write lock =>
    let r := s.callLockForWrite (some lock)
    ⟨r.1, [], r.2⟩
  | Op.granted Access.read lock =>
    let r := s.callLockForRead (some lock)
    ⟨r.1, [], r.2⟩

/-- The registry after a sequence of steps. -/
def Header.run (h : Header) (s : QFileAccessLocker) : List Op → QFileAccessLocker
  | [] => s
  | op :: rest => h.run (h.step s op).state rest

/-- The member function that acquires in the given mode. -/
def Access.fn : Access → Fn
  | Access.read => Fn.lockForRead
  | Access.write => Fn.lockForWrite

/-- The registry after the part of a call that runs under `m_mutex`: `lockForWrite` and
`lockForRead` insert a new lock when the key is absent, `unlock` changes nothing. -/
def QFileAccessLocker.resolve (s : QFileAccessLocker) (fn : Fn) (fileName : String) :
    QFileAccessLocker :=
  match fn with
  | Fn.unlock => s
  | _ => if s.m_locks.contains fileName then s else s.insertNew fileName

/-- The per-key call a member function ends with. -/
def QFileAccessLocker.perKey (s : QFileAccessLocker) (fn : Fn) (p : LockPtr) :
    QFileAccessLocker × Status :=
  match fn with
  | Fn.lockForWrite => s.callLockForWrite p
  | Fn.lockForRead => s.callLockForRead p
  | Fn.unlock => s.callUnlock p

/-! ## Reading a trace -/

/-- The lock a per-key call is issued on; `none` for the events that are no per-key call. -/
def Event.target : Event → Option LockPtr
  | Event.lockForWrite p => some p
  | Event.lockForRead p => some p
  | Event.unlock p => some p
  | _ => none

/-- Whether the event is a call into a per-key `QReadWriteLock`. -/
def Event.isPerKey (e : Event) : Bool := e.target.isSome

/-- Whether the caller holds `m_mutex` after the events, given whether it held it before. -/
def mutexHeldAfter : Bool → List Event → Bool
  | held, [] => held
  | _, Event.mutexLock :: rest => mutexHeldAfter true rest
  | _, Event.mutexUnlock :: rest => mutexHeldAfter false rest
  | held, _ :: rest => mutexHeldAfter held rest

/-- No per-key call of the trace is issued while the caller holds `m_mutex`: at every
per-key event, the events before it leave the mutex released. -/
def PerKeyOutsideMutex (t : List Event) : Prop :=
  ∀ pre e post, t = pre ++ e :: post → e.isPerKey = true → mutexHeldAfter false pre = false

/-- Checker for `PerKeyOutsideMutex`, replaying the trace. -/
def perKeyOutsideMutex : Bool → List Event → Bool
  | _, [] => true
  | _, Event.mutexLock :: rest => perKeyOutsideMutex true rest
  | _, Event.mutexUnlock :: rest => perKeyOutsideMutex false rest
  | held, e :: rest => !(held && e.isPerKey) && perKeyOutsideMutex held rest

/-- The locks the per-key calls of a trace are issued on, in order. -/
def targets (t : List Event) : List LockPtr := t.filterMap Event.target

/-- Number of calls of `QFileAccessLocker::unlock` with the key `fileName` in a trace. -/
def unlockCalls (fileName : String) (t : List Event) : Nat :=
  t.count (Event.call Fn.unlock fileName)

/-- Number of calls of `QFileAccessLocker::unlock`, with any key, in a trace. -/
def unlockCallsTotal (t : List Event) : Nat :=
  (t.filter (fun e => match e with | Event.call Fn.unlock _ => true | _ => false)).length

/-- The per-key calls issued during a run, each with the key of the registry call that
issued it. -/
def Header.perKeyCalls (h : Header) (s : QFileAccessLocker) : List Op → List (String × LockPtr)
  | [] => []
  | Op.call fn fileName :: rest =>
    (targets (h.call fn s fileName).trace).map (fun p => (fileName, p))
      ++ h.perKeyCalls (h.call fn s fileName).state rest
  | Op.granted mode lock :: rest =>
    h.perKeyCalls (h.step s (Op.granted mode lock)).state rest

/-- Well-formed registry: every key has one entry, no lock object is stored under two keys,
and every stored pointer refers to an allocated lock object. -/
def QFileAccessLocker.WF (s : QFileAccessLocker) : Prop :=
  (s.m_locks.entries.map Prod.fst).Nodup ∧ (s.m_locks.entries.map Prod.snd).Nodup
    ∧ ∀ a ∈ s.m_locks.entries.map Prod.snd, a < s.heap.length

/-! ## The scoped guards of `src/qfileaccesslocker.h` -/

/-- Result of a member function of a guard: the guard object, and what the call of the
registry it made did. -/
structure GuardOutcome (G : Type) where
  guard : G
  state : QFileAccessLocker
  trace : List Event
  status : Status

/-- The data of `class QFileWriteLockGuard`. -/
structure QFileWriteLockGuard where
  m_fileName : String
deriving DecidableEq, Repr

/-- The data of `class QFileReadLockGuard`. -/
structure QFileReadLockGuard where
  m_fileName : String
deriving DecidableEq, Repr

namespace qfileaccesslocker

/-- `QFileWriteLockGuard::QFileWriteLockGuard` (lines 76-79). -/
def QFileWriteLockGuard.ctor (s : QFileAccessLocker) (fileName : String) :
    GuardOutcome QFileWriteLockGuard :=
  -- : m_fileName (fileName)
  let g : QFileWriteLockGuard := { m_fileName := fileName }
  -- QFileAccessLocker::instance().lockForWrite (m_fileName);
  let o := qfileaccesslocker.lockForWrite s g.m_fileName
  ⟨g, o.state, o.trace, o.status⟩

/-- `QFileWriteLockGuard::unlock` (lines 87-91). -/
def QFileWriteLockGuard.unlock (g : QFileWriteLockGuard) (s : QFileAccessLocker) :
    GuardOutcome QFileWriteLockGuard :=
  -- QFileAccessLocker::instance().unlock (m_fileName);
  let o := qfileaccesslocker.unlock s g.m_fileName
  -- m_fileName.clear();
  ⟨{ g with m_fileName := "" }, o.state, o.trace, o.status⟩

/-- `QFileWriteLockGuard::~QFileWriteLockGuard` (lines 81-85). -/
def QFileWriteLockGuard.dtor (g : QFileWriteLockGuard) (s : QFileAccessLocker) : Outcome :=
  -- if (!m_fileName.isEmpty()) unlock();
  if !g.m_fileName.isEmpty then
    let r := QFileWriteLockGuard.unlock g s
    ⟨r.state, r.trace, r.status⟩
  else
    ⟨s, [], Status.returned⟩

/-- `QFileReadLockGuard::QFileReadLockGuard` (lines 101-104). -/
def QFileReadLockGuard.ctor (s : QFileAccessLocker) (fileName : String) :
    GuardOutcome QFileReadLockGuard :=
  -- : m_fileName (fileName)
  let g : QFileReadLockGuard := { m_fileName := fileName }
  -- QFileAccessLocker::instance().lockForRead (m_fileName);
  let o := qfileaccesslocker.lockForRead s g.m_fileName
  ⟨g, o.state, o.trace, o.status⟩

/-- `QFileReadLockGuard::unlock` (lines 112-116). -/
def QFileReadLockGuard.unlock (g : QFileReadLockGuard) (s : QFileAccessLocker) :
    GuardOutcome QFileReadLockGuard :=
  -- QFileAccessLocker::instance().unlock (m_fileName);
  let o := qfileaccesslocker.unlock s g.m_fileName
  -- m_fileName.clear();
  ⟨{ g with m_fileName := "" }, o.state, o.trace, o.status⟩

/-- `QFileReadLockGuard::~QFileReadLockGuard` (lines 106-110). -/
def QFileReadLockGuard.dtor (g : QFileReadLockGuard) (s : QFileAccessLocker) : Outcome :=
  -- if (!m_fileName.isEmpty()) unlock();
  if !g.m_fileName.isEmpty then
    let r := QFileReadLockGuard.unlock g s
    ⟨r.state, r.trace, r.status⟩
  else
    ⟨s, [], Status.returned⟩

end qfileaccesslocker

/-! ## The scoped guards of `src/fileaccesslocker.h` -/

namespace fileaccesslocker

/-- `QFileWriteLockGuard::QFileWriteLockGuard` (lines 75-78). -/
def QFileWriteLockGuard.ctor (s : QFileAccessLocker) (fileName : String) :
    GuardOutcome QFileWriteLockGuard :=
  let g : QFileWriteLockGuard := { m_fileName := fileName }
  let o := fileaccesslocker.lockForWrite s g.m_fileName
  ⟨g, o.state, o.trace, o.status⟩

/-- `QFileWriteLockGuard::~QFileWriteLockGuard` (lines 80-83): the key is released whatever
it is. -/
def QFileWriteLockGuard.dtor (g : QFileWriteLockGuard) (s : QFileAccessLocker) : Outcome :=
  -- QFileAccessLocker::instance().unlock (m_fileName);
  fileaccesslocker.unlock s g.m_fileName

/-- `QFileReadLockGuard::QFileReadLockGuard` (lines 94-97). -/
def QFileReadLockGuard.ctor (s : QFileAccessLocker) (fileName : String) :
    GuardOutcome QFileReadLockGuard :=
  let g : QFileReadLockGuard := { m_fileName := fileName }
  let o := fileaccesslocker.lockForRead s g.m_fileName
  ⟨g, o.state, o.trace, o.status⟩

/-- `QFileReadLockGuard::~QFileReadLockGuard` (lines 99-102). -/
def QFileReadLockGuard.dtor (g : QFileReadLockGuard) (s : QFileAccessLocker) : Outcome :=
  -- QFileAccessLocker::instance().unlock (m_fileName);
  fileaccesslocker.unlock s g.m_fileName

end fileaccesslocker

/-- Whether the lock grants an acquisition in the given mode at once. -/
def QReadWriteLock.grants (l : QReadWriteLock) : Access → Bool
  | Access.read => l.lockForRead.isSome
  | Access.write => l.lockForWrite.isSome

/-- How an acquire ends, from the pointer the map holds for the key and the lock object
behind it: an absent key gets a new lock, which grants; a present key is granted by its
lock or the caller blocks. -/
def acquireStatus (mode : Access) (p : LockPtr) (l : Option QReadWriteLock) : Status :=
  match p, l with
  | none, _ => Status.returned
  | some _, none => Status.fault
  | some _, some l => if l.grants mode then Status.returned else Status.blocked

/-- The call with outcome `o`, made in state `s`, leaves the key `k2` alone: the map entry
of `k2` (presence and lock instance) and the state of its lock are as before, no per-key
call of the trace is issued on its lock, and a following `lockForWrite` or `lockForRead` on
`k2` ends (returned or blocked) as it would have ended without the call. -/
def Untouched (s : QFileAccessLocker) (o : Outcome) (k2 : String) : Prop :=
  o.state.m_locks.value k2 = s.m_locks.value k2
  ∧ o.state.lockOf k2 = s.lockOf k2
  ∧ (∀ a, s.m_locks.value k2 = some a → some a ∉ targets o.trace)
  ∧ (qfileaccesslocker.lockForWrite o.state k2).status
      = (qfileaccesslocker.lockForWrite s k2).status
  ∧ (qfileaccesslocker.lockForRead o.state k2).status
      = (qfileaccesslocker.lockForRead s k2).status

/-! ## Programs that use the guards of `src/qfileaccesslocker.h` -/

/-- A guard object of either class. -/
inductive Guard where
  | write (g : QFileWriteLockGuard)
  | read (g : QFileReadLockGuard)
deriving DecidableEq, Repr

/-- The mode in which the guard's class acquires. -/
def Guard.mode : Guard → Access
  | Guard.write _ => Access.write
  | Guard.read _ => Access.read

/-- The member `m_fileName` of the guard. -/
def Guard.m_fileName : Guard → String
  | Guard.write g => g.m_fileName
  | Guard.read g => g.m_fileName

/-- A guard object of a running program together with its history: the key it was
constructed with, the lock its constructor is still waiting for (`none` once the
constructor has returned), whether `unlock()` has run on it, and whether it has been
destroyed. -/
structure Slot where
  guard : Guard
  key : String
  blockedOn : Option LockPtr
  released : Bool
  destroyed : Bool
deriving DecidableEq, Repr

/-- The guard is live on `k` in the given mode: it was constructed with `k` by the class of
that mode, its constructor has returned, and it has been neither released by `unlock()` nor
destroyed. -/
def Slot.live (sl : Slot) (mode : Access) (k : String) : Bool :=
  sl.blockedOn.isNone && !sl.released && !sl.destroyed
    && decide (sl.guard.mode = mode) && decide (sl.key = k)

/-- A running program: the registry singleton and the guard objects created so far. -/
structure Program where
  registry : QFileAccessLocker
  guards : List Slot
deriving DecidableEq, Repr

/-- The program at start: empty registry, no guard. -/
def Program.init : Program := ⟨QFileAccessLocker.init, []⟩

/-- What a program does with guards: construct one, have a waiting constructor granted its
lock, call `unlock()` on a constructed guard, destroy a constructed guard. -/
inductive GuardAction where
  | construct (mode : Access) (fileName : String)
  | granted (i : Nat)
  | unlock (i : Nat)
  | destroy (i : Nat)
deriving DecidableEq, Repr

/-- Constructing a guard: the constructor runs; when it blocks in the per-key acquire the
guard is recorded as waiting for the lock the constructor looked up. -/
def Program.construct (P : Program) (mode : Access) (fileName : String) : Program :=
  match mode with
  | Access.write =>
    let c := qfileaccesslocker.QFileWriteLockGuard.ctor P.registry fileName
    match c.status with
    | Status.returned =>
      ⟨c.state, P.guards ++ [⟨Guard.write c.guard, fileName, none, false, false⟩]⟩
    | Status.blocked =>
      ⟨c.state, P.guards ++
        [⟨Guard.write c.guard, fileName, some (c.state.m_locks.value fileName), false, false⟩]⟩
    | Status.fault => ⟨c.state, P.guards⟩
  | Access.read =>
    let c := qfileaccesslocker.QFileReadLockGuard.ctor P.registry fileName
    match c.status with
    | Status.returned =>
      ⟨c.state, P.guards ++ [⟨Guard.read c.guard, fileName, none, false, false⟩]⟩
    | Status.blocked =>
      ⟨c.state, P.guards ++
        [⟨Guard.read c.guard, fileName, some (c.state.m_locks.value fileName), false, false⟩]⟩
    | Status.fault => ⟨c.state, P.guards⟩

/-- A waiting constructor is granted its lock and returns; nothing happens when the lock
does not grant, or when the guard is not waiting. -/
def Program.granted (P : Program) (i : Nat) : Program :=
  match P.guards[i]? with
  | none => P
  | some sl =>
    match sl.blockedOn with
    | none => P
    | some p =>
      let r := match sl.guard.mode with
        | Access.write => P.registry.callLockForWrite p
        | Access.read => P.registry.callLockForRead p
      if r.2 = Status.returned then
        ⟨r.1, P.guards.set i { sl with blockedOn := none }⟩
      else P

/-- The call `guard.unlock()` on a guard whose constructor has returned and which has not
been destroyed. -/
def Program.unlock (P : Program) (i : Nat) : Program :=
  match P.guards[i]? with
  | none => P
  | some sl =>
    if sl.blockedOn.isSome || sl.destroyed then P
    else
      match sl.guard with
      | Guard.write g =>
        let u := qfileaccesslocker.QFileWriteLockGuard.unlock g P.registry
        ⟨u.state, P.guards.set i { sl with guard := Guard.write u.guard, released := true }⟩
      | Guard.read g =>
        let u := qfileaccesslocker.QFileReadLockGuard.unlock g P.registry
        ⟨u.state, P.guards.set i { sl with guard := Guard.read u.guard, released := true }⟩

/-- The destruction of a guard whose constructor has returned and which has not been
destroyed before: its destructor runs. -/
def Program.destroy (P : Program) (i : Nat) : Program :=
  match P.guards[i]? with
  | none => P
  | some sl =>
    if sl.blockedOn.isSome || sl.destroyed then P
    else
      match sl.guard with
      | Guard.write g =>
        let d := qfileaccesslocker.QFileWriteLockGuard.dtor g P.registry
        ⟨d.state, P.guards.set i { sl with destroyed := true }⟩
      | Guard.read g =>
        let d := qfileaccesslocker.QFileReadLockGuard.dtor g P.registry
        ⟨d.state, P.guards.set i { sl with destroyed := true }⟩

/-- One action of the program. -/
def Program.step (P : Program) : GuardAction → Program
  | GuardAction.construct mode fileName => P.construct mode fileName
  | GuardAction.granted i => P.granted i
  | GuardAction.unlock i => P.unlock i
  | GuardAction.destroy i => P.destroy i

/-- The program after a sequence of actions. -/
def Program.run (P : Program) : List GuardAction → Program
  | [] => P
  | a :: rest => (P.step a).run rest

/-- Number of guards live on `k` in the given mode. -/
def Program.liveCount (P : Program) (mode : Access) (k : String) : Nat :=
  P.guards.countP (fun sl => sl.live mode k)

/-- Mutual exclusion on `k`: at most one write guard is live on `k`, and when one is, no
read guard is live on `k`. -/
def Program.Exclusive (P : Program) (k : String) : Prop :=
  P.liveCount Access.write k ≤ 1
    ∧ (P.liveCount Access.write k = 1 → P.liveCount Access.read k = 0)

/-- The lock after an acquisition in the given mode has been granted. -/
def QReadWriteLock.acquired (l : QReadWriteLock) : Access → QReadWriteLock
  | Access.read => { l with readers := l.readers + 1 }
  | Access.write => { l with writer := true }

/-- The guard object a constructor of the class of the given mode initialises. -/
def Guard.make : Access → String → Guard
  | Access.write, fileName => Guard.write { m_fileName := fileName }
  | Access.read, fileName => Guard.read { m_fileName := fileName }

/-- The guard object after `m_fileName.clear()`. -/
def Guard.cleared : Guard → Guard
  | Guard.write g => Guard.write { g with m_fileName := "" }
  | Guard.read g => Guard.read { g with m_fileName := "" }

/-- The record of a guard agrees with the guard object and the registry: the stored key is
the key of construction until `unlock()` has run and empty afterwards, a guard whose
constructor is waiting has been neither released nor destroyed, the key of construction is
in the map, and a waiting constructor waits for the lock stored under it. -/
def Slot.Consistent (s : QFileAccessLocker) (sl : Slot) : Prop :=
  sl.guard.m_fileName = (if sl.released then "" else sl.key)
  ∧ (sl.blockedOn.isSome = true → sl.released = false ∧ sl.destroyed = false)
  ∧ ∃ a, s.m_locks.value sl.key = some a ∧ ∀ p, sl.blockedOn = some p → p = some a

/-- The lock state `l` agrees with `r` live read guards and `w` live write guards: `r` is
its number of shared holders, `w` is one when it is held exclusively and zero otherwise,
and an exclusively held lock has no shared holder. -/
def QReadWriteLock.Agrees (l : QReadWriteLock) (r w : Nat) : Prop :=
  l.readers = r ∧ w = (if l.writer then 1 else 0) ∧ (l.writer = true → l.readers = 0)

/-- The lock of `k` (a lock nobody holds, when `k` has none yet) agrees with the guards
live on `k`. -/
def Program.LockAgrees (P : Program) (k : String) : Prop :=
  ((P.registry.lockOf k).getD QReadWriteLock.fresh).Agrees
    (P.liveCount Access.read k) (P.liveCount Access.write k)

/-- The invariant of programs that use the guards: the registry is well-formed, the record
of every guard is consistent, and the lock of every non-empty key agrees with the guards
live on it. -/
def Program.Inv (P : Program) : Prop :=
  P.registry.WF ∧ (∀ sl ∈ P.guards, sl.Consistent P.registry)
    ∧ ∀ k, k ≠ "" → P.LockAgrees k

/-! # Theorems -/

/-! ## The hash -/

theorem QHash.find_put_same (l : List (String × Nat)) (key : String) (v : Nat) :
    QHash.find (QHash.put l key v) key = some v := by
  induction l with
  | nil => simp [QHash.put, QHash.find]
  | cons e rest ih =>
    obtain ⟨k, w⟩ := e
    by_cases hk : k = key
    · simp [QHash.put, QHash.find, hk]
    · simp [QHash.put, QHash.find, hk, ih]

theorem QHash.find_put_other (l : List (String × Nat)) (key k2 : String) (v : Nat)
    (hne : key ≠ k2) : QHash.find (QHash.put l key v) k2 = QHash.find l k2 := by
  induction l with
  | nil => simp [QHash.put, QHash.find, hne]
  | cons e rest ih =>
    obtain ⟨k, w⟩ := e
    by_cases hk : k = key
    · subst hk
      simp [QHash.put, QHash.find, hne]
    · by_cases hk2 : k = k2
      · subst hk2
        simp [QHash.put, QHash.find, hk]
      · simp [QHash.put, QHash.find, hk, hk2, ih]

theorem QHash.put_of_find_none (l : List (String × Nat)) (key : String) (v : Nat)
    (h : QHash.find l key = none) : QHash.put l key v = l ++ [(key, v)] := by
  induction l with
  | nil => simp [QHash.put]
  | cons e rest ih =>
    obtain ⟨k, w⟩ := e
    by_cases hk : k = key
    · simp [QHash.find, hk] at h
    · simp [QHash.find, hk] at h
      simp [QHash.put, hk, ih h]

theorem QHash.find_none_iff (l : List (String × Nat)) (key : String) :
    QHash.find l key = none ↔ key ∉ l.map Prod.fst := by
  induction l with
  | nil => simp [QHash.find]
  | cons e rest ih =>
    obtain ⟨k, w⟩ := e
    by_cases hk : k = key
    · simp [QHash.find, hk]
    · have hk2 : ¬ key = k := fun h => hk h.symm
      simp [QHash.find, hk, hk2, ih]

theorem QHash.find_some_mem (l : List (String × Nat)) (key : String) (a : Nat)
    (h : QHash.find l key = some a) : (key, a) ∈ l := by
  induction l with
  | nil => simp [QHash.find] at h
  | cons e rest ih =>
    obtain ⟨k, w⟩ := e
    by_cases hk : k = key
    · simp [QHash.find, hk] at h
      simp [hk, h]
    · simp [QHash.find, hk] at h
      simp [ih h]

/-! ## Per-key calls and the lock objects -/

theorem QFileAccessLocker.callLockForWrite_m_locks (s : QFileAccessLocker) (p : LockPtr) :
    (s.callLockForWrite p).1.m_locks = s.m_locks := by
  unfold QFileAccessLocker.callLockForWrite
  split
  · rfl
  · split
    · rfl
    · split <;> rfl

theorem QFileAccessLocker.callLockForRead_m_locks (s : QFileAccessLocker) (p : LockPtr) :
    (s.callLockForRead p).1.m_locks = s.m_locks := by
  unfold QFileAccessLocker.callLockForRead
  split
  · rfl
  · split
    · rfl
    · split <;> rfl

theorem QFileAccessLocker.callUnlock_m_locks (s : QFileAccessLocker) (p : LockPtr) :
    (s.callUnlock p).1.m_locks = s.m_locks := by
  unfold QFileAccessLocker.callUnlock
  split
  · rfl
  · split <;> rfl

/-! ## Reading traces -/

theorem perKeyOutsideMutex_sound (t : List Event) :
    ∀ held : Bool, perKeyOutsideMutex held t = true →
      ∀ pre e post, t = pre ++ e :: post → e.isPerKey = true →
        mutexHeldAfter held pre = false := by
  induction t with
  | nil =>
    intro held _ pre e post h
    simp at h
  | cons x rest ih =>
    intro held hc pre e post hsplit hper
    cases pre with
    | nil =>
      simp at hsplit
      obtain ⟨hx, _⟩ := hsplit
      subst hx
      cases x <;> simp_all [perKeyOutsideMutex, mutexHeldAfter, Event.isPerKey, Event.target]
    | cons p pre' =>
      simp at hsplit
      obtain ⟨hx, hrest⟩ := hsplit
      subst hx
      cases x <;> simp [perKeyOutsideMutex] at hc <;> simp [mutexHeldAfter]
        <;> first
          | exact ih _ hc pre' e post hrest hper
          | exact ih _ hc.2 pre' e post hrest hper

/-- C1: in `src/qfileaccesslocker.h`, for every registry state and key, the trace of
`lockForWrite` and of `lockForRead` is: call, mutex-lock, the insert when the key was absent,
lookup, mutex-unlock, per-key acquire; the trace of `unlock` of a present key is: call,
mutex-lock, lookup, mutex-unlock, per-key unlock, and of an absent key: call, mutex-lock,
mutex-unlock.  In each of the three traces no per-key
call is issued while `m_mutex` is held, and the mutex is released when the trace ends. -/
theorem qfileaccesslocker.perKey_calls_outside_mutex (s : QFileAccessLocker)
    (fileName : String) :
    ((qfileaccesslocker.lockForWrite s fileName).trace
        = [Event.call Fn.lockForWrite fileName, Event.mutexLock]
          ++ (if s.m_locks.contains fileName then []
              else [Event.insert fileName s.heap.length])
          ++ [Event.value fileName
                ((qfileaccesslocker.lockForWrite s fileName).state.m_locks.value fileName),
              Event.mutexUnlock,
              Event.lockForWrite
                ((qfileaccesslocker.lockForWrite s fileName).state.m_locks.value fileName)]
      ∧ PerKeyOutsideMutex (qfileaccesslocker.lockForWrite s fileName).trace
      ∧ mutexHeldAfter false (qfileaccesslocker.lockForWrite s fileName).trace = false)
    ∧ ((qfileaccesslocker.lockForRead s fileName).trace
        = [Event.call Fn.lockForRead fileName, Event.mutexLock]
          ++ (if s.m_locks.contains fileName then []
              else [Event.insert fileName s.heap.length])
          ++ [Event.value fileName
                ((qfileaccesslocker.lockForRead s fileName).state.m_locks.value fileName),
              Event.mutexUnlock,
              Event.lockForRead
                ((qfileaccesslocker.lockForRead s fileName).state.m_locks.value fileName)]
      ∧ PerKeyOutsideMutex (qfileaccesslocker.lockForRead s fileName).trace
      ∧ mutexHeldAfter false (qfileaccesslocker.lockForRead s fileName).trace = false)
    ∧ ((qfileaccesslocker.unlock s fileName).trace
        = (if s.m_locks.contains fileName then
            [Event.call Fn.unlock fileName, Event.mutexLock,
             Event.value fileName (s.m_locks.value fileName), Event.mutexUnlock,
             Event.unlock (s.m_locks.value fileName)]
          else [Event.call Fn.unlock fileName, Event.mutexLock, Event.mutexUnlock])
      ∧ PerKeyOutsideMutex (qfileaccesslocker.unlock s fileName).trace
      ∧ mutexHeldAfter false (qfileaccesslocker.unlock s fileName).trace = false) := by
  refine ⟨?_, ?_, ?_⟩
  · have hshape : (qfileaccesslocker.lockForWrite s fileName).trace
        = [Event.call Fn.lockForWrite fileName, Event.mutexLock]
          ++ (if s.m_locks.contains fileName then []
              else [Event.insert fileName s.heap.length])
          ++ [Event.value fileName
                ((qfileaccesslocker.lockForWrite s fileName).state.m_locks.value fileName),
              Event.mutexUnlock,
              Event.lockForWrite
                ((qfileaccesslocker.lockForWrite s fileName).state.m_locks.value fileName)] := by
      by_cases h : s.m_locks.contains fileName = true
      · simp [qfileaccesslocker.lockForWrite, h, QFileAccessLocker.callLockForWrite_m_locks]
      · simp [qfileaccesslocker.lockForWrite, h, QFileAccessLocker.callLockForWrite_m_locks]
    refine ⟨hshape, ?_, ?_⟩
    · rw [hshape]
      apply perKeyOutsideMutex_sound _ false
      by_cases h : s.m_locks.contains fileName = true <;>
        simp [h, perKeyOutsideMutex, Event.isPerKey, Event.target]
    · rw [hshape]
      by_cases h : s.m_locks.contains fileName = true <;> simp [h, mutexHeldAfter]
  · have hshape : (qfileaccesslocker.lockForRead s fileName).trace
        = [Event.call Fn.lockForRead fileName, Event.mutexLock]
          ++ (if s.m_locks.contains fileName then []
              else [Event.insert fileName s.heap.length])
          ++ [Event.value fileName
                ((qfileaccesslocker.lockForRead s fileName).state.m_locks.value fileName),
              Event.mutexUnlock,
              Event.lockForRead
                ((qfileaccesslocker.lockForRead s fileName).state.m_locks.value fileName)] := by
      by_cases h : s.m_locks.contains fileName = true
      · simp [qfileaccesslocker.lockForRead, h, QFileAccessLocker.callLockForRead_m_locks]
      · simp [qfileaccesslocker.lockForRead, h, QFileAccessLocker.callLockForRead_m_locks]
    refine ⟨hshape, ?_, ?_⟩
    · rw [hshape]
      apply perKeyOutsideMutex_sound _ false
      by_cases h : s.m_locks.contains fileName = true <;>
        simp [h, perKeyOutsideMutex, Event.isPerKey, Event.target]
    · rw [hshape]
      by_cases h : s.m_locks.contains fileName = true <;> simp [h, mutexHeldAfter]
  · refine ⟨?_, ?_, ?_⟩
    · by_cases h : s.m_locks.contains fileName = true <;> simp [qfileaccesslocker.unlock, h]
    · apply perKeyOutsideMutex_sound _ false
      by_cases h : s.m_locks.contains fileName = true <;>
        simp [qfileaccesslocker.unlock, h, perKeyOutsideMutex, Event.isPerKey, Event.target]
    · by_cases h : s.m_locks.contains fileName = true <;>
        simp [qfileaccesslocker.unlock, h, mutexHeldAfter]

/-- C10: in `src/fileaccesslocker.h` the per-key acquire is issued while `m_mutex` is held.
On the empty registry `lockForWrite ("f")` issues `lockForWrite()` on the new lock before
the mutex-unlock; and a `lockForRead ("f")` that follows stays blocked in the per-key
acquire with `m_mutex` still held. -/
theorem fileaccesslocker.acquire_while_mutex_held :
    (fileaccesslocker.lockForWrite QFileAccessLocker.init "f").trace
        = [Event.call Fn.lockForWrite "f", Event.mutexLock, Event.insert "f" 0,
           Event.value "f" (some 0), Event.lockForWrite (some 0), Event.mutexUnlock]
    ∧ ¬ PerKeyOutsideMutex (fileaccesslocker.lockForWrite QFileAccessLocker.init "f").trace
    ∧ (fileaccesslocker.lockForRead
          (fileaccesslocker.lockForWrite QFileAccessLocker.init "f").state "f").status
        = Status.blocked
    ∧ (fileaccesslocker.lockForRead
          (fileaccesslocker.lockForWrite QFileAccessLocker.init "f").state "f").trace
        = [Event.call Fn.lockForRead "f", Event.mutexLock, Event.value "f" (some 0),
           Event.lockForRead (some 0)]
    ∧ mutexHeldAfter false (fileaccesslocker.lockForRead
          (fileaccesslocker.lockForWrite QFileAccessLocker.init "f").state "f").trace = true := by
  have h1 : (fileaccesslocker.lockForWrite QFileAccessLocker.init "f").trace
        = [Event.call Fn.lockForWrite "f", Event.mutexLock, Event.insert "f" 0,
           Event.value "f" (some 0), Event.lockForWrite (some 0), Event.mutexUnlock] := by
    decide
  refine ⟨h1, ?_, by decide, by decide, by decide⟩
  intro hP
  rw [h1] at hP
  have := hP [Event.call Fn.lockForWrite "f", Event.mutexLock, Event.insert "f" 0,
    Event.value "f" (some 0)] (Event.lockForWrite (some 0)) [Event.mutexUnlock] rfl rfl
  simp [mutexHeldAfter] at this

/-! ## Every member function is: the part under the mutex, then one per-key call -/

theorem Header.call_state (h : Header) (fn : Fn) (s : QFileAccessLocker) (k : String) :
    (h.call fn s k).state
      = if fn = Fn.unlock ∧ s.m_locks.contains k = false then s
        else ((s.resolve fn k).perKey fn ((s.resolve fn k).m_locks.value k)).1 := by
  cases h <;> cases fn <;> by_cases hc : s.m_locks.contains k = true <;>
    simp [Header.call, qfileaccesslocker.lockForWrite, qfileaccesslocker.lockForRead,
      qfileaccesslocker.unlock, fileaccesslocker.lockForWrite, fileaccesslocker.lockForRead,
      fileaccesslocker.unlock, QFileAccessLocker.resolve, QFileAccessLocker.perKey, hc]

theorem Header.call_status (h : Header) (fn : Fn) (s : QFileAccessLocker) (k : String) :
    (h.call fn s k).status
      = if fn = Fn.unlock ∧ s.m_locks.contains k = false then Status.returned
        else ((s.resolve fn k).perKey fn ((s.resolve fn k).m_locks.value k)).2 := by
  cases h <;> cases fn <;> by_cases hc : s.m_locks.contains k = true <;>
    simp [Header.call, qfileaccesslocker.lockForWrite, qfileaccesslocker.lockForRead,
      qfileaccesslocker.unlock, fileaccesslocker.lockForWrite, fileaccesslocker.lockForRead,
      fileaccesslocker.unlock, QFileAccessLocker.resolve, QFileAccessLocker.perKey, hc]

theorem Header.call_targets (h : Header) (fn : Fn) (s : QFileAccessLocker) (k : String) :
    targets (h.call fn s k).trace
      = if fn = Fn.unlock ∧ s.m_locks.contains k = false then []
        else [(s.resolve fn k).m_locks.value k] := by
  cases h <;> cases fn <;> by_cases hc : s.m_locks.contains k = true <;>
    simp [Header.call, qfileaccesslocker.lockForWrite, qfileaccesslocker.lockForRead,
      qfileaccesslocker.unlock, fileaccesslocker.lockForWrite, fileaccesslocker.lockForRead,
      fileaccesslocker.unlock, QFileAccessLocker.resolve, targets, Event.target, hc] <;>
    split <;> simp [Event.target]

theorem QFileAccessLocker.perKey_m_locks (s : QFileAccessLocker) (fn : Fn) (p : LockPtr) :
    (s.perKey fn p).1.m_locks = s.m_locks := by
  cases fn
  · exact s.callLockForWrite_m_locks p
  · exact s.callLockForRead_m_locks p
  · exact s.callUnlock_m_locks p

theorem QFileAccessLocker.callLockForWrite_heap (s : QFileAccessLocker) (p : LockPtr) :
    (s.callLockForWrite p).1.heap.length = s.heap.length
      ∧ ∀ a, p ≠ some a → (s.callLockForWrite p).1.heap[a]? = s.heap[a]? := by
  unfold QFileAccessLocker.callLockForWrite
  split
  · simp
  · rename_i b
    split
    · simp
    · split
      · simp
      · refine ⟨by simp, ?_⟩
        intro a hne
        have hba : b ≠ a := fun h => hne (by rw [h])
        simp [List.getElem?_set, hba]

theorem QFileAccessLocker.callLockForRead_heap (s : QFileAccessLocker) (p : LockPtr) :
    (s.callLockForRead p).1.heap.length = s.heap.length
      ∧ ∀ a, p ≠ some a → (s.callLockForRead p).1.heap[a]? = s.heap[a]? := by
  unfold QFileAccessLocker.callLockForRead
  split
  · simp
  · rename_i b
    split
    · simp
    · split
      · simp
      · refine ⟨by simp, ?_⟩
        intro a hne
        have hba : b ≠ a := fun h => hne (by rw [h])
        simp [List.getElem?_set, hba]

theorem QFileAccessLocker.callUnlock_heap (s : QFileAccessLocker) (p : LockPtr) :
    (s.callUnlock p).1.heap.length = s.heap.length
      ∧ ∀ a, p ≠ some a → (s.callUnlock p).1.heap[a]? = s.heap[a]? := by
  unfold QFileAccessLocker.callUnlock
  split
  · simp
  · rename_i b
    split
    · simp
    · refine ⟨by simp, ?_⟩
      intro a hne
      have hba : b ≠ a := fun h => hne (by rw [h])
      simp [List.getElem?_set, hba]

theorem QFileAccessLocker.perKey_heap_length (s : QFileAccessLocker) (fn : Fn) (p : LockPtr) :
    (s.perKey fn p).1.heap.length = s.heap.length := by
  cases fn
  · exact (s.callLockForWrite_heap p).1
  · exact (s.callLockForRead_heap p).1
  · exact (s.callUnlock_heap p).1

theorem QFileAccessLocker.perKey_heap_other (s : QFileAccessLocker) (fn : Fn) (p : LockPtr)
    (a : Nat) (hne : p ≠ some a) : (s.perKey fn p).1.heap[a]? = s.heap[a]? := by
  cases fn
  · exact (s.callLockForWrite_heap p).2 a hne
  · exact (s.callLockForRead_heap p).2 a hne
  · exact (s.callUnlock_heap p).2 a hne

/-! ## The part of a call that runs under the mutex -/

theorem QHash.contains_eq_true_iff (m : QHash) (k : String) :
    m.contains k = true ↔ ∃ a, m.value k = some a := by
  simp [QHash.contains, QHash.value, Option.isSome_iff_exists]

theorem QHash.contains_eq_false_iff (m : QHash) (k : String) :
    m.contains k = false ↔ m.value k = none := by
  simp [QHash.contains, QHash.value]

theorem QFileAccessLocker.insertNew_value_self (s : QFileAccessLocker) (k : String) :
    (s.insertNew k).m_locks.value k = some s.heap.length := by
  simp [QFileAccessLocker.insertNew, QHash.insert, QHash.value, QHash.find_put_same]

theorem QFileAccessLocker.insertNew_value_other (s : QFileAccessLocker) (k k2 : String)
    (hne : k ≠ k2) : (s.insertNew k).m_locks.value k2 = s.m_locks.value k2 := by
  simp [QFileAccessLocker.insertNew, QHash.insert, QHash.value, QHash.find_put_other _ _ _ _ hne]

theorem QFileAccessLocker.resolve_value_other (s : QFileAccessLocker) (fn : Fn)
    (k k2 : String) (hne : k ≠ k2) :
    (s.resolve fn k).m_locks.value k2 = s.m_locks.value k2 := by
  cases fn <;> by_cases hc : s.m_locks.contains k = true <;>
    simp [QFileAccessLocker.resolve, hc, QFileAccessLocker.insertNew_value_other _ _ _ hne]

theorem QFileAccessLocker.resolve_value_mono (s : QFileAccessLocker) (fn : Fn)
    (k k2 : String) (a : Nat) (h : s.m_locks.value k2 = some a) :
    (s.resolve fn k).m_locks.value k2 = some a := by
  by_cases hk : k = k2
  · subst hk
    have hc : s.m_locks.contains k = true := (QHash.contains_eq_true_iff _ _).2 ⟨a, h⟩
    cases fn <;> simp [QFileAccessLocker.resolve, hc, h]
  · rw [QFileAccessLocker.resolve_value_other _ _ _ _ hk, h]

theorem QFileAccessLocker.resolve_heap_get (s : QFileAccessLocker) (fn : Fn) (k : String)
    (a : Nat) (ha : a < s.heap.length) : (s.resolve fn k).heap[a]? = s.heap[a]? := by
  cases fn <;> by_cases hc : s.m_locks.contains k = true <;>
    simp [QFileAccessLocker.resolve, hc, QFileAccessLocker.insertNew, List.getElem?_append_left ha]

/-! ## Well-formed registries -/

theorem QFileAccessLocker.init_WF : QFileAccessLocker.init.WF := by
  simp [QFileAccessLocker.WF, QFileAccessLocker.init, QHash.empty]

theorem QFileAccessLocker.insertNew_WF (s : QFileAccessLocker) (k : String) (hs : s.WF)
    (hc : s.m_locks.contains k = false) : (s.insertNew k).WF := by
  obtain ⟨h1, h2, h3⟩ := hs
  have hnone : QHash.find s.m_locks.entries k = none := by
    simpa [QHash.value] using (QHash.contains_eq_false_iff _ _).1 hc
  have hput := QHash.put_of_find_none s.m_locks.entries k s.heap.length hnone
  have hk : k ∉ s.m_locks.entries.map Prod.fst := (QHash.find_none_iff _ _).1 hnone
  have hlen : s.heap.length ∉ s.m_locks.entries.map Prod.snd := fun hmem =>
    Nat.lt_irrefl _ (h3 _ hmem)
  refine ⟨?_, ?_, ?_⟩
  · simp only [QFileAccessLocker.insertNew, QHash.insert, hput, List.map_append, List.map_cons,
      List.map_nil]
    rw [List.nodup_append]
    refine ⟨h1, by simp, ?_⟩
    intro x hx hx2
    simp at hx2
    exact hk (hx2 ▸ hx)
  · simp only [QFileAccessLocker.insertNew, QHash.insert, hput, List.map_append, List.map_cons,
      List.map_nil]
    rw [List.nodup_append]
    refine ⟨h2, by simp, ?_⟩
    intro x hx hx2
    simp at hx2
    exact hlen (hx2 ▸ hx)
  · intro a ha
    simp only [QFileAccessLocker.insertNew, QHash.insert, hput, List.map_append, List.map_cons,
      List.map_nil, List.mem_append, List.mem_singleton] at ha
    simp only [QFileAccessLocker.insertNew, List.length_append, List.length_singleton]
    rcases ha with ha | ha
    · exact Nat.lt_succ_of_lt (h3 a ha)
    · omega

theorem QFileAccessLocker.resolve_WF (s : QFileAccessLocker) (fn : Fn) (k : String)
    (hs : s.WF) : (s.resolve fn k).WF := by
  cases fn <;> by_cases hc : s.m_locks.contains k = true <;>
    simp [QFileAccessLocker.resolve, hc, hs] <;>
    exact s.insertNew_WF k hs (by simpa using hc)

theorem QFileAccessLocker.perKey_WF (s : QFileAccessLocker) (fn : Fn) (p : LockPtr)
    (hs : s.WF) : (s.perKey fn p).1.WF := by
  unfold QFileAccessLocker.WF
  rw [s.perKey_m_locks, s.perKey_heap_length]
  exact hs

theorem Header.call_WF (h : Header) (fn : Fn) (s : QFileAccessLocker) (k : String)
    (hs : s.WF) : (h.call fn s k).state.WF := by
  rw [Header.call_state]
  split
  · exact hs
  · exact QFileAccessLocker.perKey_WF _ _ _ (s.resolve_WF fn k hs)

theorem Header.step_WF (h : Header) (s : QFileAccessLocker) (op : Op) (hs : s.WF) :
    (h.step s op).state.WF := by
  cases op with
  | call fn k => exact h.call_WF fn s k hs
  | granted mode a =>
    cases mode
    · exact s.perKey_WF Fn.lockForRead (some a) hs
    · exact s.perKey_WF Fn.lockForWrite (some a) hs

theorem Header.run_WF (h : Header) (ops : List Op) :
    ∀ s : QFileAccessLocker, s.WF → (h.run s ops).WF := by
  induction ops with
  | nil => intro s hs; exact hs
  | cons op rest ih => intro s hs; exact ih _ (h.step_WF s op hs)

theorem QFileAccessLocker.WF_distinct (s : QFileAccessLocker) (hs : s.WF) (k1 k2 : String)
    (a b : Nat) (h1 : s.m_locks.value k1 = some a) (h2 : s.m_locks.value k2 = some b)
    (hne : k1 ≠ k2) : a ≠ b := by
  intro hab
  subst hab
  have m1 := QHash.find_some_mem _ _ _ h1
  have m2 := QHash.find_some_mem _ _ _ h2
  have := List.inj_on_of_nodup_map hs.2.1 m1 m2 rfl
  simp at this
  exact hne this

theorem QFileAccessLocker.WF_alloc (s : QFileAccessLocker) (hs : s.WF) (k : String) (a : Nat)
    (h : s.m_locks.value k = some a) : a < s.heap.length := by
  have m := QHash.find_some_mem _ _ _ h
  exact hs.2.2 a (List.mem_map.2 ⟨(k, a), m, rfl⟩)

/-! ## The map across calls and runs -/

theorem Header.call_m_locks (h : Header) (fn : Fn) (s : QFileAccessLocker) (k : String) :
    (h.call fn s k).state.m_locks = (s.resolve fn k).m_locks := by
  rw [Header.call_state]
  split
  · rename_i hc
    rw [hc.1]
    rfl
  · exact QFileAccessLocker.perKey_m_locks _ _ _

theorem Header.step_m_locks_granted (h : Header) (s : QFileAccessLocker) (mode : Access)
    (a : Nat) : (h.step s (Op.granted mode a)).state.m_locks = s.m_locks := by
  cases mode
  · exact s.callLockForRead_m_locks (some a)
  · exact s.callLockForWrite_m_locks (some a)

theorem Header.step_value_mono (h : Header) (s : QFileAccessLocker) (op : Op) (k : String)
    (a : Nat) (hk : s.m_locks.value k = some a) :
    (h.step s op).state.m_locks.value k = some a := by
  cases op with
  | call fn key =>
    show (h.call fn s key).state.m_locks.value k = some a
    rw [Header.call_m_locks]
    exact s.resolve_value_mono fn key k a hk
  | granted mode b =>
    rw [Header.step_m_locks_granted]
    exact hk

theorem Header.run_value_mono (h : Header) (ops : List Op) :
    ∀ (s : QFileAccessLocker) (k : String) (a : Nat), s.m_locks.value k = some a →
      (h.run s ops).m_locks.value k = some a := by
  induction ops with
  | nil => intro s k a hk; exact hk
  | cons op rest ih => intro s k a hk; exact ih _ k a (h.step_value_mono s op k a hk)

theorem QFileAccessLocker.resolve_value_self (s : QFileAccessLocker) (fn : Fn) (k : String)
    (hfn : ¬ (fn = Fn.unlock ∧ s.m_locks.contains k = false)) :
    ∃ a, (s.resolve fn k).m_locks.value k = some a := by
  by_cases hc : s.m_locks.contains k = true
  · obtain ⟨a, ha⟩ := (QHash.contains_eq_true_iff _ _).1 hc
    exact ⟨a, s.resolve_value_mono fn k k a ha⟩
  · cases fn
    · exact ⟨s.heap.length, by simp [QFileAccessLocker.resolve, hc, s.insertNew_value_self k]⟩
    · exact ⟨s.heap.length, by simp [QFileAccessLocker.resolve, hc, s.insertNew_value_self k]⟩
    · exact absurd ⟨rfl, by simpa using hc⟩ hfn

theorem Header.perKeyCalls_value (h : Header) (ops : List Op) :
    ∀ (s : QFileAccessLocker) (k : String) (p : LockPtr), (k, p) ∈ h.perKeyCalls s ops →
      ∃ a, p = some a ∧ (h.run s ops).m_locks.value k = some a := by
  induction ops with
  | nil => intro s k p hmem; simp [Header.perKeyCalls] at hmem
  | cons op rest ih =>
    intro s k p hmem
    cases op with
    | call fn key =>
      simp only [Header.perKeyCalls, List.mem_append, List.mem_map] at hmem
      rcases hmem with ⟨q, hq, heq⟩ | hmem
      · simp only [Prod.mk.injEq] at heq
        obtain ⟨hkey, hqp⟩ := heq
        subst hkey
        subst hqp
        rw [Header.call_targets] at hq
        split at hq
        · simp at hq
        · rename_i hfn
          simp only [List.mem_singleton] at hq
          obtain ⟨a, ha⟩ := s.resolve_value_self fn key hfn
          refine ⟨a, by rw [hq, ha], ?_⟩
          apply h.run_value_mono rest
          show (h.call fn s key).state.m_locks.value key = some a
          rw [Header.call_m_locks]
          exact ha
      · exact ih _ k p hmem
    | granted mode b =>
      simp only [Header.perKeyCalls] at hmem
      exact ih _ k p hmem

/-- C9: entries are added, never removed.  In both headers, a key that is present with
lock instance `a` is still present with the same instance after any call of `lockForWrite`,
`lockForRead` or `unlock` with any key, after any step, and after any sequence of steps;
so from any state on (any state reachable from the empty registry included) a present key
never returns to absent. -/
theorem entries_never_removed (h : Header) (s : QFileAccessLocker) (k : String) (a : Nat)
    (hk : s.m_locks.value k = some a) :
    (∀ fn fileName, (h.call fn s fileName).state.m_locks.value k = some a)
    ∧ (∀ op, (h.step s op).state.m_locks.value k = some a)
    ∧ (∀ ops, (h.run s ops).m_locks.value k = some a
        ∧ (h.run s ops).m_locks.contains k = true) := by
  refine ⟨fun fn fileName => h.step_value_mono s (Op.call fn fileName) k a hk,
    fun op => h.step_value_mono s op k a hk, fun ops => ?_⟩
  have := h.run_value_mono ops s k a hk
  exact ⟨this, (QHash.contains_eq_true_iff _ _).2 ⟨a, this⟩⟩

theorem entries_never_removed_witness :
    (qfileaccesslocker.lockForWrite QFileAccessLocker.init "f").state.m_locks.value "f" = some 0
    ∧ (fileaccesslocker.unlock
        (qfileaccesslocker.lockForWrite QFileAccessLocker.init "f").state "f").state.m_locks.value
          "f" = some 0 :=
  ⟨by decide,
   (entries_never_removed Header.fileaccesslocker
      (qfileaccesslocker.lockForWrite QFileAccessLocker.init "f").state "f" 0 (by decide)).1
      Fn.unlock "f"⟩

/-- C8: releasing an unknown key is a no-op.  In both headers, when the key is not in the
map, `unlock (key)` returns, leaves the registry (the map and every lock) as it was, does
not insert the key, and its trace is call, mutex-lock, mutex-unlock: no call into a
per-key lock. -/
theorem unlock_unknown_key_noop (s : QFileAccessLocker) (fileName : String)
    (habs : s.m_locks.contains fileName = false) :
    (qfileaccesslocker.unlock s fileName
        = ⟨s, [Event.call Fn.unlock fileName, Event.mutexLock, Event.mutexUnlock],
            Status.returned⟩
      ∧ (qfileaccesslocker.unlock s fileName).state.m_locks.contains fileName = false
      ∧ targets (qfileaccesslocker.unlock s fileName).trace = [])
    ∧ (fileaccesslocker.unlock s fileName
        = ⟨s, [Event.call Fn.unlock fileName, Event.mutexLock, Event.mutexUnlock],
            Status.returned⟩
      ∧ (fileaccesslocker.unlock s fileName).state.m_locks.contains fileName = false
      ∧ targets (fileaccesslocker.unlock s fileName).trace = []) := by
  have h1 : qfileaccesslocker.unlock s fileName
      = ⟨s, [Event.call Fn.unlock fileName, Event.mutexLock, Event.mutexUnlock],
          Status.returned⟩ := by
    simp [qfileaccesslocker.unlock, habs]
  have h2 : fileaccesslocker.unlock s fileName
      = ⟨s, [Event.call Fn.unlock fileName, Event.mutexLock, Event.mutexUnlock],
          Status.returned⟩ := by
    simp [fileaccesslocker.unlock, habs]
  refine ⟨⟨h1, ?_, ?_⟩, ⟨h2, ?_, ?_⟩⟩
  · rw [h1]; exact habs
  · rw [h1]; simp [targets, Event.target]
  · rw [h2]; exact habs
  · rw [h2]; simp [targets, Event.target]

theorem unlock_unknown_key_noop_witness :
    (qfileaccesslocker.lockForWrite QFileAccessLocker.init "f").state.m_locks.contains "g"
        = false
    ∧ qfileaccesslocker.unlock (qfileaccesslocker.lockForWrite QFileAccessLocker.init "f").state
        "g"
        = ⟨(qfileaccesslocker.lockForWrite QFileAccessLocker.init "f").state,
            [Event.call Fn.unlock "g", Event.mutexLock, Event.mutexUnlock], Status.returned⟩ :=
  ⟨by decide,
   (unlock_unknown_key_noop (qfileaccesslocker.lockForWrite QFileAccessLocker.init "f").state
      "g" (by decide)).1.1⟩

/-- C3: lazy, idempotent creation.  In both headers, after `lockForWrite (key)` or
`lockForRead (key)` the map contains `key`; when the key was absent the map has gained the
one entry from `key` to a newly allocated lock object (the number of lock objects grows by
one), and when it was present the map and the number of lock objects are unchanged; the
one per-key call of the trace is issued on the instance stored under `key`.  Over any
sequence of steps, any two per-key calls made for the same key are issued on the same lock
instance, the one the map holds for the key at the end. -/
theorem lazy_idempotent_creation (h : Header) (mode : Access) (s : QFileAccessLocker)
    (key : String) :
    (h.call mode.fn s key).state.m_locks.contains key = true
    ∧ (h.call mode.fn s key).state.m_locks
        = (if s.m_locks.contains key then s.m_locks
           else ⟨s.m_locks.entries ++ [(key, s.heap.length)]⟩)
    ∧ (h.call mode.fn s key).state.heap.length
        = (if s.m_locks.contains key then s.heap.length else s.heap.length + 1)
    ∧ (h.call mode.fn s key).state.m_locks.value key
        = (if s.m_locks.contains key then s.m_locks.value key else some s.heap.length)
    ∧ targets (h.call mode.fn s key).trace = [(h.call mode.fn s key).state.m_locks.value key]
    ∧ (∀ ops k p q, (k, p) ∈ h.perKeyCalls s ops → (k, q) ∈ h.perKeyCalls s ops →
        p = q ∧ p ≠ none ∧ (h.run s ops).m_locks.value k = p) := by
  have hfn : ¬ (mode.fn = Fn.unlock ∧ s.m_locks.contains key = false) := by
    cases mode <;> simp [Access.fn]
  have hres : s.resolve mode.fn key
      = if s.m_locks.contains key then s else s.insertNew key := by
    cases mode <;> simp [Access.fn, QFileAccessLocker.resolve]
  have hstate : (h.call mode.fn s key).state
      = ((s.resolve mode.fn key).perKey mode.fn ((s.resolve mode.fn key).m_locks.value key)).1 := by
    rw [Header.call_state, if_neg hfn]
  have hval : (h.call mode.fn s key).state.m_locks.value key
      = (if s.m_locks.contains key then s.m_locks.value key else some s.heap.length) := by
    rw [Header.call_m_locks, hres]
    by_cases hc : s.m_locks.contains key = true
    · simp [hc]
    · simp [hc, s.insertNew_value_self key]
  refine ⟨?_, ?_, ?_, hval, ?_, ?_⟩
  · obtain ⟨a, ha⟩ := s.resolve_value_self mode.fn key hfn
    rw [Header.call_m_locks]
    exact (QHash.contains_eq_true_iff _ _).2 ⟨a, ha⟩
  · rw [Header.call_m_locks, hres]
    by_cases hc : s.m_locks.contains key = true
    · simp [hc]
    · have hnone : QHash.find s.m_locks.entries key = none := by
        simpa [QHash.contains] using hc
      simp [hc, QFileAccessLocker.insertNew, QHash.insert,
        QHash.put_of_find_none _ _ _ hnone]
  · rw [hstate, QFileAccessLocker.perKey_heap_length, hres]
    by_cases hc : s.m_locks.contains key = true
    · simp [hc]
    · simp [hc, QFileAccessLocker.insertNew]
  · rw [Header.call_targets, if_neg hfn, Header.call_m_locks]
  · intro ops k p q hp hq
    obtain ⟨a, hpa, hva⟩ := h.perKeyCalls_value ops s k p hp
    obtain ⟨b, hqb, hvb⟩ := h.perKeyCalls_value ops s k q hq
    have hab : a = b := by
      rw [hva] at hvb
      exact Option.some.inj hvb
    subst hpa
    subst hqb
    exact ⟨by rw [hab], by simp, hva⟩

/-! ## Keys do not interfere -/

theorem Header.acquire_status (h : Header) (mode : Access) (s : QFileAccessLocker)
    (k : String) :
    (h.call mode.fn s k).status = acquireStatus mode (s.m_locks.value k) (s.lockOf k) := by
  have hfn : ¬ (mode.fn = Fn.unlock ∧ s.m_locks.contains k = false) := by
    cases mode <;> simp [Access.fn]
  rw [Header.call_status, if_neg hfn]
  by_cases hc : s.m_locks.contains k = true
  · obtain ⟨a, ha⟩ := (QHash.contains_eq_true_iff _ _).1 hc
    have hres : s.resolve mode.fn k = s := by
      cases mode <;> simp [Access.fn, QFileAccessLocker.resolve, hc]
    rw [hres, ha]
    cases hl : s.heap[a]? with
    | none =>
      cases mode <;>
        simp [Access.fn, QFileAccessLocker.perKey, QFileAccessLocker.callLockForRead,
          QFileAccessLocker.callLockForWrite, QFileAccessLocker.lockOf, acquireStatus, ha, hl]
    | some l =>
      cases mode
      · cases hg : l.lockForRead <;>
          simp [Access.fn, QFileAccessLocker.perKey, QFileAccessLocker.callLockForRead,
            QFileAccessLocker.lockOf, acquireStatus, QReadWriteLock.grants, ha, hl, hg]
      · cases hg : l.lockForWrite <;>
          simp [Access.fn, QFileAccessLocker.perKey, QFileAccessLocker.callLockForWrite,
            QFileAccessLocker.lockOf, acquireStatus, QReadWriteLock.grants, ha, hl, hg]
  · have hnone : s.m_locks.value k = none :=
      (QHash.contains_eq_false_iff _ _).1 (by simpa using hc)
    have hres : s.resolve mode.fn k = s.insertNew k := by
      cases mode <;> simp [Access.fn, QFileAccessLocker.resolve, hc]
    rw [hres, s.insertNew_value_self k, hnone]
    cases mode <;>
      simp [Access.fn, QFileAccessLocker.perKey, QFileAccessLocker.callLockForRead,
        QFileAccessLocker.callLockForWrite, QFileAccessLocker.insertNew, acquireStatus,
        QReadWriteLock.fresh, QReadWriteLock.lockForRead, QReadWriteLock.lockForWrite]

theorem Header.call_untouched (h : Header) (fn : Fn) (s : QFileAccessLocker) (hs : s.WF)
    (k1 k2 : String) (hne : k1 ≠ k2) : Untouched s (h.call fn s k1) k2 := by
  have hv : (h.call fn s k1).state.m_locks.value k2 = s.m_locks.value k2 := by
    rw [Header.call_m_locks]
    exact s.resolve_value_other fn k1 k2 hne
  have hheap : ∀ a, s.m_locks.value k2 = some a →
      (h.call fn s k1).state.heap[a]? = s.heap[a]? ∧ some a ∉ targets (h.call fn s k1).trace := by
    intro a ha
    rw [Header.call_state, Header.call_targets]
    split
    · simp
    · rename_i hfn
      obtain ⟨b, hb⟩ := s.resolve_value_self fn k1 hfn
      have hba : b ≠ a :=
        QFileAccessLocker.WF_distinct _ (s.resolve_WF fn k1 hs) k1 k2 b a hb
          (s.resolve_value_mono fn k1 k2 a ha) hne
      rw [hb]
      refine ⟨?_, ?_⟩
      · rw [QFileAccessLocker.perKey_heap_other _ _ _ _ (by simpa using hba)]
        exact s.resolve_heap_get fn k1 a (s.WF_alloc hs k2 a ha)
      · simp
        exact fun h => hba h.symm
  have hl : (h.call fn s k1).state.lockOf k2 = s.lockOf k2 := by
    unfold QFileAccessLocker.lockOf
    rw [hv]
    cases ha : s.m_locks.value k2 with
    | none => rfl
    | some a => exact (hheap a ha).1
  refine ⟨hv, hl, fun a ha => (hheap a ha).2, ?_, ?_⟩
  · have e1 : (qfileaccesslocker.lockForWrite (h.call fn s k1).state k2).status
        = acquireStatus Access.write ((h.call fn s k1).state.m_locks.value k2)
            ((h.call fn s k1).state.lockOf k2) :=
      Header.acquire_status Header.qfileaccesslocker Access.write (h.call fn s k1).state k2
    have e2 : (qfileaccesslocker.lockForWrite s k2).status
        = acquireStatus Access.write (s.m_locks.value k2) (s.lockOf k2) :=
      Header.acquire_status Header.qfileaccesslocker Access.write s k2
    rw [e1, e2, hv, hl]
  · have e1 : (qfileaccesslocker.lockForRead (h.call fn s k1).state k2).status
        = acquireStatus Access.read ((h.call fn s k1).state.m_locks.value k2)
            ((h.call fn s k1).state.lockOf k2) :=
      Header.acquire_status Header.qfileaccesslocker Access.read (h.call fn s k1).state k2
    have e2 : (qfileaccesslocker.lockForRead s k2).status
        = acquireStatus Access.read (s.m_locks.value k2) (s.lockOf k2) :=
      Header.acquire_status Header.qfileaccesslocker Access.read s k2
    rw [e1, e2, hv, hl]

/-- C2: keys do not interfere.  In every registry state reachable from the empty registry
and for all keys `k1 ≠ k2`, a `lockForWrite`, `lockForRead` or `unlock` on `k1`
(`src/qfileaccesslocker.h`), whether it returns or blocks, leaves `k2` alone: the map
entry of `k2` (presence and lock instance) and the state of the lock of `k2` are unchanged,
no per-key call is issued on the lock of `k2`, and a following `lockForWrite` or
`lockForRead` on `k2` ends (granted or blocked) exactly as it would have without the call
on `k1`. -/
theorem qfileaccesslocker.other_keys_untouched (ops : List Op) (k1 k2 : String)
    (hne : k1 ≠ k2) :
    Untouched (Header.qfileaccesslocker.run QFileAccessLocker.init ops)
        (qfileaccesslocker.lockForWrite
          (Header.qfileaccesslocker.run QFileAccessLocker.init ops) k1) k2
    ∧ Untouched (Header.qfileaccesslocker.run QFileAccessLocker.init ops)
        (qfileaccesslocker.lockForRead
          (Header.qfileaccesslocker.run QFileAccessLocker.init ops) k1) k2
    ∧ Untouched (Header.qfileaccesslocker.run QFileAccessLocker.init ops)
        (qfileaccesslocker.unlock
          (Header.qfileaccesslocker.run QFileAccessLocker.init ops) k1) k2 := by
  have hs := Header.run_WF Header.qfileaccesslocker ops _ QFileAccessLocker.init_WF
  exact ⟨Header.call_untouched Header.qfileaccesslocker Fn.lockForWrite _ hs k1 k2 hne,
    Header.call_untouched Header.qfileaccesslocker Fn.lockForRead _ hs k1 k2 hne,
    Header.call_untouched Header.qfileaccesslocker Fn.unlock _ hs k1 k2 hne⟩

theorem qfileaccesslocker.other_keys_untouched_witness :
    "f" ≠ "g"
    ∧ Untouched
      (Header.qfileaccesslocker.run QFileAccessLocker.init
        [Op.call Fn.lockForWrite "f", Op.call Fn.lockForRead "g"])
      (qfileaccesslocker.lockForWrite
        (Header.qfileaccesslocker.run QFileAccessLocker.init
          [Op.call Fn.lockForWrite "f", Op.call Fn.lockForRead "g"]) "f") "g" :=
  ⟨by decide,
   (qfileaccesslocker.other_keys_untouched
    [Op.call Fn.lockForWrite "f", Op.call Fn.lockForRead "g"] "f" "g" (by decide)).1⟩

theorem lazy_idempotent_creation_witness :
    (Header.qfileaccesslocker.call Fn.lockForWrite QFileAccessLocker.init "f").state.m_locks
        = ⟨[("f", 0)]⟩
    ∧ (some 0 : LockPtr) = some 0 ∧ (some 0 : LockPtr) ≠ none
    ∧ (Header.qfileaccesslocker.run QFileAccessLocker.init
        [Op.call Fn.lockForWrite "f", Op.call Fn.unlock "f", Op.call Fn.lockForRead "f"]
        ).m_locks.value "f" = some 0 :=
  ⟨(lazy_idempotent_creation Header.qfileaccesslocker Access.write QFileAccessLocker.init
      "f").2.1,
   (lazy_idempotent_creation Header.qfileaccesslocker Access.write QFileAccessLocker.init
      "f").2.2.2.2.2
      [Op.call Fn.lockForWrite "f", Op.call Fn.unlock "f", Op.call Fn.lockForRead "f"]
      "f" (some 0) (some 0) (by decide) (by decide)⟩

/-! ## The scoped guards -/

/-- C7: explicit release followed by destruction never double-unlocks.  For every key and
every registry state, constructing a guard of `src/qfileaccesslocker.h`, calling its
`unlock()` once and destroying it issues exactly one `QFileAccessLocker::unlock`, the one
of the explicit `unlock()`: the destructor issues no event, returns, and leaves the state
right after the explicit `unlock()`.  More generally the destructor of a guard on which
`unlock()` has run does nothing in any state. -/
theorem qfileaccesslocker.unlock_then_destroy (s : QFileAccessLocker) (fileName : String) :
    (let c := QFileWriteLockGuard.ctor s fileName
     let u := QFileWriteLockGuard.unlock c.guard c.state
     let d := QFileWriteLockGuard.dtor u.guard u.state
     unlockCallsTotal (c.trace ++ u.trace ++ d.trace) = 1
     ∧ unlockCalls fileName (c.trace ++ u.trace ++ d.trace) = 1
     ∧ unlockCallsTotal u.trace = 1
     ∧ d = ⟨u.state, [], Status.returned⟩
     ∧ ∀ s1 s2, QFileWriteLockGuard.dtor (QFileWriteLockGuard.unlock c.guard s1).guard s2
          = ⟨s2, [], Status.returned⟩)
    ∧ (let c := QFileReadLockGuard.ctor s fileName
       let u := QFileReadLockGuard.unlock c.guard c.state
       let d := QFileReadLockGuard.dtor u.guard u.state
       unlockCallsTotal (c.trace ++ u.trace ++ d.trace) = 1
       ∧ unlockCalls fileName (c.trace ++ u.trace ++ d.trace) = 1
       ∧ unlockCallsTotal u.trace = 1
       ∧ d = ⟨u.state, [], Status.returned⟩
       ∧ ∀ s1 s2, QFileReadLockGuard.dtor (QFileReadLockGuard.unlock c.guard s1).guard s2
            = ⟨s2, [], Status.returned⟩) := by
  have hU : ∀ (s' : QFileAccessLocker) (k : String),
      unlockCallsTotal (qfileaccesslocker.unlock s' k).trace = 1
        ∧ unlockCalls k (qfileaccesslocker.unlock s' k).trace = 1 := by
    intro s' k
    by_cases hc : s'.m_locks.contains k = true <;>
      simp [qfileaccesslocker.unlock, hc, unlockCallsTotal, unlockCalls, List.filter]
  have hW : unlockCallsTotal (qfileaccesslocker.lockForWrite s fileName).trace = 0
      ∧ unlockCalls fileName (qfileaccesslocker.lockForWrite s fileName).trace = 0 := by
    by_cases hc : s.m_locks.contains fileName = true <;>
      simp [qfileaccesslocker.lockForWrite, hc, unlockCallsTotal, unlockCalls, List.filter]
  have hR : unlockCallsTotal (qfileaccesslocker.lockForRead s fileName).trace = 0
      ∧ unlockCalls fileName (qfileaccesslocker.lockForRead s fileName).trace = 0 := by
    by_cases hc : s.m_locks.contains fileName = true <;>
      simp [qfileaccesslocker.lockForRead, hc, unlockCallsTotal, unlockCalls, List.filter]
  have hE : ("" : String).isEmpty = true := by decide
  have happT : ∀ a b : List Event,
      unlockCallsTotal (a ++ b) = unlockCallsTotal a + unlockCallsTotal b := by
    intro a b
    simp [unlockCallsTotal]
  have happ : ∀ (k : String) (a b : List Event),
      unlockCalls k (a ++ b) = unlockCalls k a + unlockCalls k b := by
    intro k a b
    simp [unlockCalls]
  refine ⟨?_, ?_⟩
  · simp only [QFileWriteLockGuard.ctor, QFileWriteLockGuard.unlock, QFileWriteLockGuard.dtor]
    refine ⟨?_, ?_, ?_, ?_, ?_⟩
    · rw [happT, happT, hW.1, (hU _ _).1]
      simp [unlockCallsTotal, hE]
    · rw [happ, happ, hW.2, (hU _ _).2]
      simp [unlockCalls, hE]
    · exact (hU _ _).1
    · simp [hE]
    · intro s1 s2
      simp [hE]
  · simp only [QFileReadLockGuard.ctor, QFileReadLockGuard.unlock, QFileReadLockGuard.dtor]
    refine ⟨?_, ?_, ?_, ?_, ?_⟩
    · rw [happT, happT, hR.1, (hU _ _).1]
      simp [unlockCallsTotal, hE]
    · rw [happ, happ, hR.2, (hU _ _).2]
      simp [unlockCalls, hE]
    · exact (hU _ _).1
    · simp [hE]
    · intro s1 s2
      simp [hE]

theorem qfileaccesslocker.destroy_releases_nonempty_key (s : QFileAccessLocker)
    (fileName : String) (hne : fileName ≠ "") :
    (let c := QFileWriteLockGuard.ctor s fileName
     let d := QFileWriteLockGuard.dtor c.guard c.state
     d = qfileaccesslocker.unlock c.state fileName
     ∧ unlockCallsTotal d.trace = 1 ∧ unlockCalls fileName d.trace = 1)
    ∧ (let c := QFileReadLockGuard.ctor s fileName
       let d := QFileReadLockGuard.dtor c.guard c.state
       d = qfileaccesslocker.unlock c.state fileName
       ∧ unlockCallsTotal d.trace = 1 ∧ unlockCalls fileName d.trace = 1) := by
  have hE : fileName.isEmpty = false := by
    cases h : fileName.isEmpty
    · rfl
    · exact absurd ((String.isEmpty_iff fileName).1 h) hne
  have hU : ∀ (s' : QFileAccessLocker) (k : String),
      unlockCallsTotal (qfileaccesslocker.unlock s' k).trace = 1
        ∧ unlockCalls k (qfileaccesslocker.unlock s' k).trace = 1 := by
    intro s' k
    by_cases hc : s'.m_locks.contains k = true <;>
      simp [qfileaccesslocker.unlock, hc, unlockCallsTotal, unlockCalls, List.filter]
  refine ⟨?_, ?_⟩
  · simp only [QFileWriteLockGuard.ctor, QFileWriteLockGuard.unlock, QFileWriteLockGuard.dtor,
      hE]
    exact ⟨by simp, (hU _ _).1, (hU _ _).2⟩
  · simp only [QFileReadLockGuard.ctor, QFileReadLockGuard.unlock, QFileReadLockGuard.dtor,
      hE]
    exact ⟨by simp, (hU _ _).1, (hU _ _).2⟩

theorem qfileaccesslocker.unlock_released_guard_noop (s : QFileAccessLocker)
    (habs : s.m_locks.contains "" = false) :
    QFileWriteLockGuard.unlock { m_fileName := "" } s
        = ⟨{ m_fileName := "" }, s,
            [Event.call Fn.unlock "", Event.mutexLock, Event.mutexUnlock], Status.returned⟩
    ∧ QFileReadLockGuard.unlock { m_fileName := "" } s
        = ⟨{ m_fileName := "" }, s,
            [Event.call Fn.unlock "", Event.mutexLock, Event.mutexUnlock], Status.returned⟩ := by
  simp [QFileWriteLockGuard.unlock, QFileReadLockGuard.unlock, qfileaccesslocker.unlock, habs]

/-- C5: a guard constructed with the empty key is never released by its destructor.  On the
empty registry `QFileWriteLockGuard ("")` returns holding the lock of `""` exclusively; its
destructor, run without an explicit `unlock()`, issues no `QFileAccessLocker::unlock` and
leaves the lock held, so that the next write guard on `""` blocks.  The same holds for
`QFileReadLockGuard ("")`, whose shared hold stays.  The destructor of
`src/fileaccesslocker.h` does release the empty key. -/
theorem qfileaccesslocker.empty_key_guard_not_released :
    (let c := QFileWriteLockGuard.ctor QFileAccessLocker.init ""
     let d := QFileWriteLockGuard.dtor c.guard c.state
     c.status = Status.returned
     ∧ c.state.lockOf "" = some ⟨0, true⟩
     ∧ d = ⟨c.state, [], Status.returned⟩
     ∧ unlockCallsTotal (c.trace ++ d.trace) = 0
     ∧ d.state.lockOf "" = some ⟨0, true⟩
     ∧ (QFileWriteLockGuard.ctor d.state "").status = Status.blocked)
    ∧ (let c := QFileReadLockGuard.ctor QFileAccessLocker.init ""
       let d := QFileReadLockGuard.dtor c.guard c.state
       c.status = Status.returned
       ∧ c.state.lockOf "" = some ⟨1, false⟩
       ∧ d = ⟨c.state, [], Status.returned⟩
       ∧ unlockCallsTotal (c.trace ++ d.trace) = 0
       ∧ d.state.lockOf "" = some ⟨1, false⟩
       ∧ (QFileWriteLockGuard.ctor d.state "").status = Status.blocked)
    ∧ (let c := fileaccesslocker.QFileWriteLockGuard.ctor QFileAccessLocker.init ""
       let d := fileaccesslocker.QFileWriteLockGuard.dtor c.guard c.state
       unlockCalls "" (c.trace ++ d.trace) = 1
       ∧ d.state.lockOf "" = some ⟨0, false⟩) := by
  decide

/-- C6: a second `unlock()` on a released guard is not a no-op when the empty key is in the
map.  With a write guard on `""` holding its lock, a read guard on `"x"` is constructed and
released by `unlock()`; its stored key is then empty.  A further `unlock()` on it calls
`QFileAccessLocker::unlock ("")`, which finds the entry of `""` and unlocks that lock: the
lock of `""` goes from exclusively held to unlocked. -/
theorem qfileaccesslocker.second_unlock_releases_empty_key :
    (let a := QFileWriteLockGuard.ctor QFileAccessLocker.init ""
     let b := QFileReadLockGuard.ctor a.state "x"
     let u1 := QFileReadLockGuard.unlock b.guard b.state
     let u2 := QFileReadLockGuard.unlock u1.guard u1.state
     a.status = Status.returned ∧ b.status = Status.returned ∧ u1.status = Status.returned
     ∧ u1.guard.m_fileName = ""
     ∧ u1.state.lockOf "" = some ⟨0, true⟩
     ∧ u2.trace = [Event.call Fn.unlock "", Event.mutexLock, Event.value "" (some 0),
                   Event.mutexUnlock, Event.unlock (some 0)]
     ∧ u2.state.lockOf "" = some ⟨0, false⟩
     ∧ u2.state ≠ u1.state) := by
  decide

/-! ## Mutual exclusion of the guards -/

/-- C4: mutual exclusion fails on the empty key.  A write guard on `""` is constructed and
stays live; a read guard on `"x"` is constructed and `unlock()` is called on it twice; the
second call unlocks the lock of `""`.  A second write guard on `""` is then constructed
without blocking: two write guards are live on `""` at the same time. -/
theorem qfileaccesslocker.two_live_write_guards_on_empty_key :
    (Program.run Program.init
        [GuardAction.construct Access.write "", GuardAction.construct Access.read "x",
         GuardAction.unlock 1, GuardAction.unlock 1, GuardAction.construct Access.write ""]).liveCount
        Access.write "" = 2
    ∧ ¬ (Program.run Program.init
        [GuardAction.construct Access.write "", GuardAction.construct Access.read "x",
         GuardAction.unlock 1, GuardAction.unlock 1, GuardAction.construct Access.write ""]).Exclusive "" := by
  have h : (Program.run Program.init
        [GuardAction.construct Access.write "", GuardAction.construct Access.read "x",
         GuardAction.unlock 1, GuardAction.unlock 1, GuardAction.construct Access.write ""]).liveCount
        Access.write "" = 2 := by decide
  refine ⟨h, ?_⟩
  intro hE
  have := hE.1
  omega

/-! ## The effect of a call on the lock of its own key -/

theorem QFileAccessLocker.lockOf_of_value (s : QFileAccessLocker) (hs : s.WF) (k : String)
    (a : Nat) (ha : s.m_locks.value k = some a) :
    ∃ l, s.heap[a]? = some l ∧ s.lockOf k = some l := by
  have hlt := s.WF_alloc hs k a ha
  refine ⟨s.heap[a], List.getElem?_eq_getElem hlt, ?_⟩
  simp [QFileAccessLocker.lockOf, ha, List.getElem?_eq_getElem hlt]

theorem QFileAccessLocker.perKey_acquire (s : QFileAccessLocker) (mode : Access) (a : Nat)
    (l : QReadWriteLock) (hl : s.heap[a]? = some l) :
    (s.perKey mode.fn (some a)).2
        = (if l.grants mode then Status.returned else Status.blocked)
    ∧ (s.perKey mode.fn (some a)).1.heap[a]?
        = some (if l.grants mode then l.acquired mode else l) := by
  have hlt : a < s.heap.length := (List.getElem?_eq_some.1 hl).1
  cases mode
  · by_cases hw : l.writer = true
    · simp [Access.fn, QFileAccessLocker.perKey, QFileAccessLocker.callLockForRead, hl,
        QReadWriteLock.grants, QReadWriteLock.lockForRead, hw]
    · simp [Access.fn, QFileAccessLocker.perKey, QFileAccessLocker.callLockForRead, hl,
        QReadWriteLock.grants, QReadWriteLock.lockForRead, hw, QReadWriteLock.acquired,
        List.getElem?_set_self hlt]
  · by_cases hw : (l.writer || l.readers != 0) = true
    · simp only [Access.fn, QFileAccessLocker.perKey, QFileAccessLocker.callLockForWrite, hl,
        QReadWriteLock.grants, QReadWriteLock.lockForWrite, hw]
      simp [hl]
    · simp only [Access.fn, QFileAccessLocker.perKey, QFileAccessLocker.callLockForWrite, hl,
        QReadWriteLock.grants, QReadWriteLock.lockForWrite, hw]
      simp [QReadWriteLock.acquired, List.getElem?_set_self hlt]

theorem QFileAccessLocker.perKey_lockOf_other (s : QFileAccessLocker) (hs : s.WF) (fn : Fn)
    (a : Nat) (k1 k : String) (h1 : s.m_locks.value k1 = some a) (hne : k1 ≠ k) :
    (s.perKey fn (some a)).1.lockOf k = s.lockOf k := by
  unfold QFileAccessLocker.lockOf
  rw [QFileAccessLocker.perKey_m_locks]
  cases hb : s.m_locks.value k with
  | none => rfl
  | some b =>
    have hab : a ≠ b := s.WF_distinct hs k1 k a b h1 hb hne
    exact s.perKey_heap_other fn (some a) b (by simpa using hab)

theorem Header.acquire_effect (h : Header) (mode : Access) (s : QFileAccessLocker)
    (hs : s.WF) (key : String) :
    (h.call mode.fn s key).status
        = (if ((s.lockOf key).getD QReadWriteLock.fresh).grants mode then Status.returned
           else Status.blocked)
    ∧ (h.call mode.fn s key).state.lockOf key
        = some (if ((s.lockOf key).getD QReadWriteLock.fresh).grants mode
            then ((s.lockOf key).getD QReadWriteLock.fresh).acquired mode
            else (s.lockOf key).getD QReadWriteLock.fresh) := by
  have hfn : ¬ (mode.fn = Fn.unlock ∧ s.m_locks.contains key = false) := by
    cases mode <;> simp [Access.fn]
  obtain ⟨a, ha⟩ := s.resolve_value_self mode.fn key hfn
  have hWF := s.resolve_WF mode.fn key hs
  obtain ⟨l, hl, hlo⟩ := QFileAccessLocker.lockOf_of_value _ hWF key a ha
  have hl0 : (s.lockOf key).getD QReadWriteLock.fresh = l := by
    by_cases hc : s.m_locks.contains key = true
    · have hres : s.resolve mode.fn key = s := by
        cases mode <;> simp [Access.fn, QFileAccessLocker.resolve, hc]
      rw [hres] at hlo
      simp [hlo]
    · have hnone : s.m_locks.value key = none :=
        (QHash.contains_eq_false_iff _ _).1 (by simpa using hc)
      have hres : s.resolve mode.fn key = s.insertNew key := by
        cases mode <;> simp [Access.fn, QFileAccessLocker.resolve, hc]
      rw [hres, s.insertNew_value_self key] at ha
      have haeq : a = s.heap.length := (Option.some.inj ha).symm
      rw [hres] at hl
      subst haeq
      simp [QFileAccessLocker.insertNew] at hl
      simp [QFileAccessLocker.lockOf, hnone, hl]
  rw [hl0, Header.call_status, Header.call_state, if_neg hfn, if_neg hfn, ha]
  obtain ⟨e1, e2⟩ := QFileAccessLocker.perKey_acquire _ mode a l hl
  refine ⟨e1, ?_⟩
  unfold QFileAccessLocker.lockOf
  rw [QFileAccessLocker.perKey_m_locks, ha]
  exact e2

theorem Header.unlock_effect (h : Header) (s : QFileAccessLocker) (key : String)
    (l : QReadWriteLock) (hl : s.lockOf key = some l) :
    (h.call Fn.unlock s key).state.lockOf key = some l.unlock := by
  have hv : ∃ a, s.m_locks.value key = some a := by
    cases hv : s.m_locks.value key with
    | none => simp [QFileAccessLocker.lockOf, hv] at hl
    | some a => exact ⟨a, rfl⟩
  obtain ⟨a, ha⟩ := hv
  have hc : s.m_locks.contains key = true := (QHash.contains_eq_true_iff _ _).2 ⟨a, ha⟩
  have hfn : ¬ (Fn.unlock = Fn.unlock ∧ s.m_locks.contains key = false) := by simp [hc]
  have hla : s.heap[a]? = some l := by
    simpa [QFileAccessLocker.lockOf, ha] using hl
  have hlt : a < s.heap.length := (List.getElem?_eq_some.1 hla).1
  rw [Header.call_state, if_neg hfn]
  simp [QFileAccessLocker.resolve, QFileAccessLocker.perKey, QFileAccessLocker.callUnlock, ha,
    hla, QFileAccessLocker.lockOf, List.getElem?_set_self hlt]

/-! ## Programs: the actions in terms of the registry calls -/

theorem Program.construct_eq (P : Program) (mode : Access) (f : String) :
    P.construct mode f
      = match (Header.qfileaccesslocker.call mode.fn P.registry f).status with
        | Status.returned =>
          ⟨(Header.qfileaccesslocker.call mode.fn P.registry f).state,
            P.guards ++ [⟨Guard.make mode f, f, none, false, false⟩]⟩
        | Status.blocked =>
          ⟨(Header.qfileaccesslocker.call mode.fn P.registry f).state,
            P.guards ++ [⟨Guard.make mode f, f,
              some ((Header.qfileaccesslocker.call mode.fn P.registry f).state.m_locks.value f),
              false, false⟩]⟩
        | Status.fault => ⟨(Header.qfileaccesslocker.call mode.fn P.registry f).state, P.guards⟩ := by
  cases mode <;> rfl

theorem Program.granted_eq (P : Program) (i : Nat) (sl : Slot) (p : LockPtr)
    (hi : P.guards[i]? = some sl) (hp : sl.blockedOn = some p) :
    P.granted i
      = if (P.registry.perKey sl.guard.mode.fn p).2 = Status.returned then
          ⟨(P.registry.perKey sl.guard.mode.fn p).1, P.guards.set i { sl with blockedOn := none }⟩
        else P := by
  unfold Program.granted
  rw [hi]
  simp only [hp]
  cases hm : sl.guard.mode <;> rfl

theorem Program.unlock_eq (P : Program) (i : Nat) (sl : Slot)
    (hi : P.guards[i]? = some sl) (hb : sl.blockedOn = none) (hd : sl.destroyed = false) :
    P.unlock i
      = ⟨(Header.qfileaccesslocker.call Fn.unlock P.registry sl.guard.m_fileName).state,
          P.guards.set i { sl with guard := sl.guard.cleared, released := true }⟩ := by
  unfold Program.unlock
  rw [hi]
  simp only [hb, hd]
  cases hg : sl.guard <;> rfl

theorem Program.destroy_eq (P : Program) (i : Nat) (sl : Slot)
    (hi : P.guards[i]? = some sl) (hb : sl.blockedOn = none) (hd : sl.destroyed = false) :
    P.destroy i
      = ⟨if sl.guard.m_fileName = "" then P.registry
          else (Header.qfileaccesslocker.call Fn.unlock P.registry sl.guard.m_fileName).state,
          P.guards.set i { sl with destroyed := true }⟩ := by
  unfold Program.destroy
  rw [hi]
  simp only [hb, hd]
  cases hg : sl.guard with
  | write g =>
    by_cases he : g.m_fileName = ""
    · have he3 : ("" : String).isEmpty = true := by decide
      simp [qfileaccesslocker.QFileWriteLockGuard.dtor, Guard.m_fileName, he, he3]
    · have he2 : g.m_fileName.isEmpty = false := by
        cases h : g.m_fileName.isEmpty
        · rfl
        · exact absurd ((String.isEmpty_iff _).1 h) he
      simp [qfileaccesslocker.QFileWriteLockGuard.dtor, Guard.m_fileName, he, he2,
        qfileaccesslocker.QFileWriteLockGuard.unlock, Header.call]
  | read g =>
    by_cases he : g.m_fileName = ""
    · have he3 : ("" : String).isEmpty = true := by decide
      simp [qfileaccesslocker.QFileReadLockGuard.dtor, Guard.m_fileName, he, he3]
    · have he2 : g.m_fileName.isEmpty = false := by
        cases h : g.m_fileName.isEmpty
        · rfl
        · exact absurd ((String.isEmpty_iff _).1 h) he
      simp [qfileaccesslocker.QFileReadLockGuard.dtor, Guard.m_fileName, he, he2,
        qfileaccesslocker.QFileReadLockGuard.unlock, Header.call]

theorem List.countP_set_add {α : Type} (p : α → Bool) (l : List α) :
    ∀ (i : Nat) (x y : α), l[i]? = some x →
      (l.set i y).countP p + (if p x then 1 else 0)
        = l.countP p + (if p y then 1 else 0) := by
  induction l with
  | nil => intro i x y h; simp at h
  | cons z rest ih =>
    intro i x y h
    cases i with
    | zero =>
      simp at h
      subst h
      simp [List.countP_cons]
      omega
    | succ j =>
      simp at h
      have := ih j x y h
      simp [List.countP_cons]
      omega

/-! ## The invariant of programs that use the guards -/

theorem QReadWriteLock.Agrees.acquired {l : QReadWriteLock} {r w : Nat} (h : l.Agrees r w)
    (mode : Access) (hg : l.grants mode = true) :
    (l.acquired mode).Agrees (r + if mode = Access.read then 1 else 0)
      (w + if mode = Access.write then 1 else 0) := by
  obtain ⟨h1, h2, h3⟩ := h
  cases mode
  · have hw : l.writer = false := by
      cases hw : l.writer
      · rfl
      · simp [QReadWriteLock.grants, QReadWriteLock.lockForRead, hw] at hg
    simp [QReadWriteLock.Agrees, QReadWriteLock.acquired, hw, h1] at *
    exact h2
  · have hw : l.writer = false ∧ l.readers = 0 := by
      cases hw : l.writer
      · simpa [QReadWriteLock.grants, QReadWriteLock.lockForWrite, hw] using hg
      · simp [QReadWriteLock.grants, QReadWriteLock.lockForWrite, hw] at hg
    simp [QReadWriteLock.Agrees, QReadWriteLock.acquired, hw.1, hw.2] at *
    omega

theorem QReadWriteLock.Agrees.unlock {l : QReadWriteLock} {r w r0 w0 : Nat}
    (h : l.Agrees r w) (mode : Access)
    (hr : r = r0 + if mode = Access.read then 1 else 0)
    (hw : w = w0 + if mode = Access.write then 1 else 0) :
    l.unlock.Agrees r0 w0 := by
  obtain ⟨h1, h2, h3⟩ := h
  cases mode
  · simp at hr hw
    cases hwr : l.writer
    · simp [QReadWriteLock.Agrees, QReadWriteLock.unlock, hwr] at *
      omega
    · have := h3 hwr
      omega
  · simp at hr hw
    cases hwr : l.writer
    · simp [hwr] at h2
      omega
    · have := h3 hwr
      simp [QReadWriteLock.Agrees, QReadWriteLock.unlock, hwr] at *
      omega

theorem Slot.live_eq_true_iff (sl : Slot) (mode : Access) (k : String) :
    sl.live mode k = true
      ↔ sl.blockedOn = none ∧ sl.released = false ∧ sl.destroyed = false
        ∧ sl.guard.mode = mode ∧ sl.key = k := by
  simp [Slot.live, and_assoc]

theorem Slot.live_false_of_key (sl : Slot) (mode : Access) (k : String) (h : sl.key ≠ k) :
    sl.live mode k = false := by
  simp [Slot.live, h]

theorem Slot.live_false_of_released (sl : Slot) (mode : Access) (k : String)
    (h : sl.released = true ∨ sl.destroyed = true ∨ sl.blockedOn.isSome = true) :
    sl.live mode k = false := by
  rcases h with h | h | h
  · simp [Slot.live, h]
  · simp [Slot.live, h]
  · cases hb : sl.blockedOn with
    | none => simp [hb] at h
    | some p => simp [Slot.live, hb]

theorem Slot.Consistent.mono {s s' : QFileAccessLocker} {sl : Slot} (h : sl.Consistent s)
    (hm : ∀ k a, s.m_locks.value k = some a → s'.m_locks.value k = some a) :
    sl.Consistent s' := by
  obtain ⟨h1, h2, a, ha, hp⟩ := h
  exact ⟨h1, h2, a, hm _ _ ha, hp⟩

theorem Program.init_Inv : Program.init.Inv := by
  refine ⟨QFileAccessLocker.init_WF, ?_, ?_⟩
  · intro sl hsl
    simp [Program.init] at hsl
  · intro k _
    simp [Program.LockAgrees, Program.init, Program.liveCount, QFileAccessLocker.init,
      QFileAccessLocker.lockOf, QHash.value, QHash.empty, QHash.find, QReadWriteLock.Agrees,
      QReadWriteLock.fresh]

theorem Program.liveCount_append (r : QFileAccessLocker) (gs : List Slot) (sl : Slot)
    (mode : Access) (k : String) :
    (Program.mk r (gs ++ [sl])).liveCount mode k
      = gs.countP (fun x => x.live mode k) + if sl.live mode k then 1 else 0 := by
  simp [Program.liveCount, List.countP_append, List.countP_singleton]

theorem Program.construct_Inv (P : Program) (hP : P.Inv) (mode : Access) (f : String) :
    (P.construct mode f).Inv := by
  obtain ⟨hWF, hC, hA⟩ := hP
  have hWF' := Header.call_WF Header.qfileaccesslocker mode.fn P.registry f hWF
  have hmono : ∀ k a, P.registry.m_locks.value k = some a →
      (Header.qfileaccesslocker.call mode.fn P.registry f).state.m_locks.value k = some a :=
    fun k a hk => Header.step_value_mono Header.qfileaccesslocker P.registry
      (Op.call mode.fn f) k a hk
  have hfn : ¬ (mode.fn = Fn.unlock ∧ P.registry.m_locks.contains f = false) := by
    cases mode <;> simp [Access.fn]
  obtain ⟨a, ha⟩ := P.registry.resolve_value_self mode.fn f hfn
  rw [← Header.call_m_locks Header.qfileaccesslocker] at ha
  obtain ⟨e1, e2⟩ := Header.acquire_effect Header.qfileaccesslocker mode P.registry hWF f
  have hother : ∀ k, f ≠ k →
      (Header.qfileaccesslocker.call mode.fn P.registry f).state.lockOf k
        = P.registry.lockOf k :=
    fun k hk => (Header.call_untouched Header.qfileaccesslocker mode.fn P.registry hWF f k hk).2.1
  rw [Program.construct_eq]
  by_cases hg : ((P.registry.lockOf f).getD QReadWriteLock.fresh).grants mode = true
  · rw [if_pos hg] at e1 e2
    rw [e1]
    dsimp only
    refine ⟨hWF', ?_, ?_⟩
    · intro sl hsl
      simp only [List.mem_append, List.mem_singleton] at hsl
      rcases hsl with hsl | hsl
      · exact (hC sl hsl).mono hmono
      · subst hsl
        refine ⟨?_, ?_, a, ha, ?_⟩
        · cases mode <;> simp [Guard.make, Guard.m_fileName]
        · simp
        · simp
    · intro k hk
      unfold Program.LockAgrees
      rw [Program.liveCount_append, Program.liveCount_append]
      by_cases hfk : f = k
      · subst hfk
        have hAk := hA f hk
        unfold Program.LockAgrees Program.liveCount at hAk
        simp only [e2, Option.getD_some]
        have := hAk.acquired mode hg
        cases mode <;> simpa [Slot.live, Guard.make, Guard.mode] using this
      · have hAk := hA k hk
        unfold Program.LockAgrees Program.liveCount at hAk
        have hnl : ∀ m, (Slot.mk (Guard.make mode f) f none false false).live m k = false :=
          fun m => Slot.live_false_of_key _ m k hfk
        simp only [hother k hfk, hnl]
        simpa using hAk
  · rw [if_neg hg] at e1 e2
    rw [e1]
    dsimp only
    refine ⟨hWF', ?_, ?_⟩
    · intro sl hsl
      simp only [List.mem_append, List.mem_singleton] at hsl
      rcases hsl with hsl | hsl
      · exact (hC sl hsl).mono hmono
      · subst hsl
        refine ⟨?_, ?_, a, ha, ?_⟩
        · cases mode <;> simp [Guard.make, Guard.m_fileName]
        · simp
        · intro p hp
          simp at hp
          rw [← hp, ha]
    · intro k hk
      unfold Program.LockAgrees
      rw [Program.liveCount_append, Program.liveCount_append]
      have hnl : ∀ m, (Slot.mk (Guard.make mode f) f
          (some ((Header.qfileaccesslocker.call mode.fn P.registry f).state.m_locks.value f))
          false false).live m k = false :=
        fun m => Slot.live_false_of_released _ _ _ (Or.inr (Or.inr rfl))
      have hAk := hA k hk
      unfold Program.LockAgrees Program.liveCount at hAk
      by_cases hfk : f = k
      · subst hfk
        simp only [e2, Option.getD_some, hnl]
        simpa using hAk
      · simp only [hother k hfk, hnl]
        simpa using hAk

theorem Program.granted_Inv (P : Program) (hP : P.Inv) (i : Nat) : (P.granted i).Inv := by
  have hP0 := hP
  obtain ⟨hWF, hC, hA⟩ := hP
  cases hi : P.guards[i]? with
  | none =>
    have : P.granted i = P := by simp [Program.granted, hi]
    rw [this]; exact hP0
  | some sl =>
    cases hb : sl.blockedOn with
    | none =>
      have : P.granted i = P := by simp [Program.granted, hi, hb]
      rw [this]; exact hP0
    | some p =>
      rw [Program.granted_eq P i sl p hi hb]
      obtain ⟨c1, c2, a, ha, hp⟩ := hC sl (List.getElem?_mem hi)
      have hpa := hp p hb
      subst hpa
      have c2' := c2 (by simp [hb])
      obtain ⟨l, hl, hlo⟩ := QFileAccessLocker.lockOf_of_value _ hWF sl.key a ha
      obtain ⟨e1, e2⟩ := QFileAccessLocker.perKey_acquire P.registry sl.guard.mode a l hl
      by_cases hg : l.grants sl.guard.mode = true
      · rw [if_pos hg] at e1 e2
        rw [if_pos e1]
        refine ⟨QFileAccessLocker.perKey_WF _ _ _ hWF, ?_, ?_⟩
        · intro x hx
          rcases List.mem_or_eq_of_mem_set hx with hx | hx
          · exact (hC x hx).mono (fun k b hk => by rw [QFileAccessLocker.perKey_m_locks]; exact hk)
          · subst hx
            refine ⟨c1, by simp, a, ?_, by simp⟩
            rw [QFileAccessLocker.perKey_m_locks]
            exact ha
        · intro k hk
          have hAk := hA k hk
          unfold Program.LockAgrees Program.liveCount at hAk ⊢
          have hcr := List.countP_set_add (fun x => x.live Access.read k) P.guards i sl
            { sl with blockedOn := none } hi
          have hcw := List.countP_set_add (fun x => x.live Access.write k) P.guards i sl
            { sl with blockedOn := none } hi
          have hnl : ∀ m, sl.live m k = false :=
            fun m => Slot.live_false_of_released _ _ _ (Or.inr (Or.inr (by simp [hb])))
          simp only [hnl] at hcr hcw
          by_cases hkk : sl.key = k
          · subst hkk
            have hlo' : (P.registry.perKey sl.guard.mode.fn (some a)).1.lockOf sl.key
                = some (l.acquired sl.guard.mode) := by
              unfold QFileAccessLocker.lockOf
              rw [QFileAccessLocker.perKey_m_locks, ha]
              exact e2
            simp only [hlo', Option.getD_some]
            rw [hlo] at hAk
            have hacq := QReadWriteLock.Agrees.acquired hAk sl.guard.mode hg
            have hr : List.countP (fun x => x.live Access.read sl.key)
                (P.guards.set i { sl with blockedOn := none })
                = List.countP (fun x => x.live Access.read sl.key) P.guards
                  + if sl.guard.mode = Access.read then 1 else 0 := by
              have hlv : (Slot.mk sl.guard sl.key none sl.released sl.destroyed).live
                  Access.read sl.key = decide (sl.guard.mode = Access.read) := by
                simp [Slot.live, c2'.1, c2'.2]
              simp only [hlv, decide_eq_true_eq] at hcr
              simpa using hcr
            have hw : List.countP (fun x => x.live Access.write sl.key)
                (P.guards.set i { sl with blockedOn := none })
                = List.countP (fun x => x.live Access.write sl.key) P.guards
                  + if sl.guard.mode = Access.write then 1 else 0 := by
              have hlv : (Slot.mk sl.guard sl.key none sl.released sl.destroyed).live
                  Access.write sl.key = decide (sl.guard.mode = Access.write) := by
                simp [Slot.live, c2'.1, c2'.2]
              simp only [hlv, decide_eq_true_eq] at hcw
              simpa using hcw
            rw [hr, hw]
            exact hacq
          · have hnl' : ∀ m, (Slot.mk sl.guard sl.key none sl.released sl.destroyed).live m k
                = false := fun m => Slot.live_false_of_key _ m k hkk
            simp only [hnl'] at hcr hcw
            rw [QFileAccessLocker.perKey_lockOf_other _ hWF _ a sl.key k ha hkk]
            simp at hcr hcw
            rw [hcr, hcw]
            exact hAk
      · rw [if_neg hg] at e1
        rw [if_neg (by rw [e1]; decide)]
        exact hP0

theorem Program.release_Inv (P : Program) (hP : P.Inv) (i : Nat) (sl sl' : Slot)
    (hi : P.guards[i]? = some sl) (hb : sl.blockedOn = none) (hd : sl.destroyed = false)
    (hkey : sl'.key = sl.key)
    (hgone : sl'.released = true ∨ sl'.destroyed = true) (hb' : sl'.blockedOn = none)
    (hc' : sl'.guard.m_fileName = if sl'.released then "" else sl'.key) :
    (Program.mk (Header.qfileaccesslocker.call Fn.unlock P.registry sl.guard.m_fileName).state
      (P.guards.set i sl')).Inv := by
  obtain ⟨hWF, hC, hA⟩ := hP
  have hmono : ∀ k a, P.registry.m_locks.value k = some a →
      (Header.qfileaccesslocker.call Fn.unlock P.registry sl.guard.m_fileName).state.m_locks.value
        k = some a :=
    fun k a hk => Header.step_value_mono Header.qfileaccesslocker P.registry
      (Op.call Fn.unlock sl.guard.m_fileName) k a hk
  obtain ⟨c1, c2, a, ha, hp⟩ := hC sl (List.getElem?_mem hi)
  refine ⟨Header.call_WF _ _ _ _ hWF, ?_, ?_⟩
  · intro x hx
    rcases List.mem_or_eq_of_mem_set hx with hx | hx
    · exact (hC x hx).mono hmono
    · subst hx
      refine ⟨hc', by simp [hb'], a, ?_, by simp [hb']⟩
      rw [hkey]
      exact hmono _ _ ha
  · intro k hk
    have hAk := hA k hk
    unfold Program.LockAgrees Program.liveCount at hAk ⊢
    have hcr := List.countP_set_add (fun x => x.live Access.read k) P.guards i sl sl' hi
    have hcw := List.countP_set_add (fun x => x.live Access.write k) P.guards i sl sl' hi
    have hnl : ∀ m, sl'.live m k = false := fun m =>
      Slot.live_false_of_released _ _ _
        (hgone.elim Or.inl (fun h => Or.inr (Or.inl h)))
    simp only [hnl] at hcr hcw
    simp only [Bool.false_eq_true, if_false, Nat.add_zero] at hcr hcw
    by_cases hfk : sl.guard.m_fileName = k
    · have hrel : sl.released = false := by
        cases hr : sl.released
        · rfl
        · rw [hr] at c1
          simp at c1
          exact absurd (hfk.symm.trans c1) hk
      have hkk : sl.key = k := by
        rw [hrel] at c1
        simp at c1
        rw [← c1]; exact hfk
      obtain ⟨l, hl, hlo⟩ := QFileAccessLocker.lockOf_of_value _ hWF sl.key a ha
      rw [hkk] at hlo
      rw [hfk, Header.unlock_effect Header.qfileaccesslocker P.registry k l hlo]
      rw [hlo] at hAk
      simp only [Option.getD_some] at hAk ⊢
      have hlr : sl.live Access.read k = decide (sl.guard.mode = Access.read) := by
        simp [Slot.live, hb, hd, hrel, hkk]
      have hlw : sl.live Access.write k = decide (sl.guard.mode = Access.write) := by
        simp [Slot.live, hb, hd, hrel, hkk]
      simp only [hlr, hlw, decide_eq_true_eq] at hcr hcw
      exact QReadWriteLock.Agrees.unlock hAk sl.guard.mode hcr.symm hcw.symm
    · have hnl2 : ∀ m, sl.live m k = false := by
        intro m
        cases hlv : sl.live m k
        · rfl
        · obtain ⟨_, h2, _, _, h5⟩ := (Slot.live_eq_true_iff sl m k).1 hlv
          rw [h2] at c1
          simp at c1
          exact absurd (c1.trans h5) hfk
      simp only [hnl2] at hcr hcw
      simp only [Bool.false_eq_true, if_false, Nat.add_zero] at hcr hcw
      rw [(Header.call_untouched Header.qfileaccesslocker Fn.unlock P.registry hWF
        sl.guard.m_fileName k hfk).2.1, hcr, hcw]
      exact hAk

theorem Program.unlock_Inv (P : Program) (hP : P.Inv) (i : Nat) : (P.unlock i).Inv := by
  cases hi : P.guards[i]? with
  | none =>
    have : P.unlock i = P := by simp [Program.unlock, hi]
    rw [this]; exact hP
  | some sl =>
    by_cases hbd : sl.blockedOn = none ∧ sl.destroyed = false
    · rw [Program.unlock_eq P i sl hi hbd.1 hbd.2]
      exact P.release_Inv hP i sl _ hi hbd.1 hbd.2 rfl (Or.inl rfl) hbd.1
        (by cases sl.guard <;> simp [Guard.cleared, Guard.m_fileName])
    · have hcond : (sl.blockedOn.isSome || sl.destroyed) = true := by
        cases hb : sl.blockedOn with
        | some p => simp
        | none =>
          cases hd : sl.destroyed with
          | true => simp
          | false => exact absurd ⟨hb, hd⟩ hbd
      have : P.unlock i = P := by simp [Program.unlock, hi, hcond]
      rw [this]; exact hP

theorem Program.drop_Inv (P : Program) (hP : P.Inv) (i : Nat) (sl : Slot)
    (hi : P.guards[i]? = some sl) (hb : sl.blockedOn = none)
    (hf : sl.guard.m_fileName = "") :
    (Program.mk P.registry (P.guards.set i { sl with destroyed := true })).Inv := by
  obtain ⟨hWF, hC, hA⟩ := hP
  obtain ⟨c1, c2, a, ha, hp⟩ := hC sl (List.getElem?_mem hi)
  refine ⟨hWF, ?_, ?_⟩
  · intro x hx
    rcases List.mem_or_eq_of_mem_set hx with hx | hx
    · exact hC x hx
    · subst hx
      exact ⟨c1, by simp [hb], a, ha, by simp [hb]⟩
  · intro k hk
    have hAk := hA k hk
    unfold Program.LockAgrees Program.liveCount at hAk ⊢
    have hcr := List.countP_set_add (fun x => x.live Access.read k) P.guards i sl
      { sl with destroyed := true } hi
    have hcw := List.countP_set_add (fun x => x.live Access.write k) P.guards i sl
      { sl with destroyed := true } hi
    have hnl : ∀ m, (Slot.mk sl.guard sl.key sl.blockedOn sl.released true).live m k = false :=
      fun m => Slot.live_false_of_released _ _ _ (Or.inr (Or.inl rfl))
    have hnl2 : ∀ m, sl.live m k = false := by
      intro m
      cases hlv : sl.live m k
      · rfl
      · obtain ⟨_, h2, _, _, h5⟩ := (Slot.live_eq_true_iff sl m k).1 hlv
        rw [h2] at c1
        simp at c1
        exact absurd ((c1.symm.trans hf).symm.trans h5).symm hk
    simp only [hnl, hnl2] at hcr hcw
    simp only [Bool.false_eq_true, if_false, Nat.add_zero] at hcr hcw
    rw [hcr, hcw]
    exact hAk

theorem Program.destroy_Inv (P : Program) (hP : P.Inv) (i : Nat) : (P.destroy i).Inv := by
  cases hi : P.guards[i]? with
  | none =>
    have : P.destroy i = P := by simp [Program.destroy, hi]
    rw [this]; exact hP
  | some sl =>
    by_cases hbd : sl.blockedOn = none ∧ sl.destroyed = false
    · rw [Program.destroy_eq P i sl hi hbd.1 hbd.2]
      by_cases hf : sl.guard.m_fileName = ""
      · rw [if_pos hf]
        exact P.drop_Inv hP i sl hi hbd.1 hf
      · rw [if_neg hf]
        exact P.release_Inv hP i sl _ hi hbd.1 hbd.2 rfl (Or.inr rfl) hbd.1
          (hP.2.1 sl (List.getElem?_mem hi)).1
    · have hcond : (sl.blockedOn.isSome || sl.destroyed) = true := by
        cases hb : sl.blockedOn with
        | some p => simp
        | none =>
          cases hd : sl.destroyed with
          | true => simp
          | false => exact absurd ⟨hb, hd⟩ hbd
      have : P.destroy i = P := by simp [Program.destroy, hi, hcond]
      rw [this]; exact hP

theorem Program.step_Inv (P : Program) (hP : P.Inv) (act : GuardAction) :
    (P.step act).Inv := by
  cases act with
  | construct mode f => exact P.construct_Inv hP mode f
  | granted i => exact P.granted_Inv hP i
  | unlock i => exact P.unlock_Inv hP i
  | destroy i => exact P.destroy_Inv hP i

theorem Program.run_Inv (acts : List GuardAction) :
    ∀ P : Program, P.Inv → (P.run acts).Inv := by
  induction acts with
  | nil => intro P hP; exact hP
  | cons act rest ih => intro P hP; exact ih _ (P.step_Inv hP act)

theorem Program.Inv.exclusive {P : Program} (hP : P.Inv) (k : String) (hk : k ≠ "") :
    P.Exclusive k := by
  obtain ⟨h1, h2, h3⟩ := hP.2.2 k hk
  refine ⟨?_, ?_⟩
  · rw [h2]
    split <;> omega
  · intro hw
    rw [h2] at hw
    have hwr : ((P.registry.lockOf k).getD QReadWriteLock.fresh).writer = true := by
      cases hwr : ((P.registry.lockOf k).getD QReadWriteLock.fresh).writer
      · simp [hwr] at hw
      · rfl
    rw [← h1]
    exact h3 hwr

/-- Mutual exclusion on every non-empty key: in every state a program reaches from the
start by constructing guards, having waiting constructors granted, calling `unlock()` (any
number of times) and destroying guards, at most one write guard is live on a key `k ≠ ""`,
and when one is, no read guard is live on `k`. -/
theorem qfileaccesslocker.guards_exclusive_on_nonempty_key (acts : List GuardAction)
    (k : String) (hk : k ≠ "") : (Program.init.run acts).Exclusive k :=
  (Program.run_Inv acts Program.init Program.init_Inv).exclusive k hk

theorem Program.read_guards_add (k : String) (n : Nat) :
    ∀ P : Program, P.registry.WF →
      ((P.registry.lockOf k).getD QReadWriteLock.fresh).writer = false →
      (P.run (List.replicate n (GuardAction.construct Access.read k))).liveCount Access.read k
        = P.liveCount Access.read k + n := by
  induction n with
  | zero => intro P _ _; rfl
  | succ n ih =>
    intro P hWF hw
    have hg : ((P.registry.lockOf k).getD QReadWriteLock.fresh).grants Access.read = true := by
      simp [QReadWriteLock.grants, QReadWriteLock.lockForRead, hw]
    obtain ⟨e1, e2⟩ := Header.acquire_effect Header.qfileaccesslocker Access.read P.registry hWF k
    rw [if_pos hg] at e1 e2
    have hstep : P.step (GuardAction.construct Access.read k)
        = ⟨(Header.qfileaccesslocker.call Access.read.fn P.registry k).state,
            P.guards ++ [⟨Guard.make Access.read k, k, none, false, false⟩]⟩ := by
      show P.construct Access.read k = _
      rw [Program.construct_eq, e1]
    simp only [List.replicate_succ, Program.run]
    rw [hstep, ih _ (Header.call_WF _ _ _ _ hWF)
      (by simp [e2, QReadWriteLock.acquired, hw]), Program.liveCount_append]
    simp [Program.liveCount, Slot.live, Guard.make, Guard.mode]
    omega

/-- Read guards share: for every key and every `n`, constructing `n` read guards on the key
from the start leaves all `n` live at once. -/
theorem qfileaccesslocker.read_guards_live_together (k : String) (n : Nat) :
    (Program.init.run (List.replicate n (GuardAction.construct Access.read k))).liveCount
      Access.read k = n := by
  have h := Program.read_guards_add k n Program.init QFileAccessLocker.init_WF (by
    simp [Program.init, QFileAccessLocker.init, QFileAccessLocker.lockOf, QHash.value,
      QHash.empty, QHash.find, QReadWriteLock.fresh])
  simpa [Program.liveCount, Program.init] using h
